import Mathlib

/-!
# Verification of the nexusSAAS control plane and runner against its specification

This file embeds the decision logic of the nexusSAAS repository (a two-tier
tenant control plane: `services/control-plane` and `services/runner`) as
executable Lean definitions and proves or refutes the specification claims
about it.

Conventions of the embedding:
* Python `dict[str, str]` values become association lists with Python's
  insertion/overwrite semantics (`dictInsert`, `dictUpdate`, `dictPop`);
  dictionary equality (`dictEqb`) is key/value-set equality, matching `==`
  on `dict`.
* Database sessions become explicit state passing over `CPState`; a request
  handler is a function from the pre-state (plus oracle inputs for random
  ids and for the outcome of HTTP calls to the Runner) to a result and a
  post-state.  An exception escaping a handler closes the session without a
  commit, so pending inserts are discarded: such paths return the pre-state.
* External library collaborators (the AES-GCM primitive of the
  `cryptography` package, `json.dumps`/`json.loads`, `jose.jwt.decode`) are
  parameters of the definitions that call them, constrained only by their
  documented contracts; everything written in the repository itself is
  modelled concretely.
* Machine-level details irrelevant to the claims (timestamps, logging) are
  either oracle parameters (`now : Nat`) or omitted.
-/

/-! ## Python dictionary semantics

`dict` with string keys, as used for env maps and JSON payloads.  The
operations mirror CPython semantics: `update` overwrites in place keeping
the original position, `pop` removes, `==` compares key/value sets. -/

def dictContains [BEq α] (m : List (α × β)) (k : α) : Bool :=
  m.any (fun p => p.1 == k)

def dictGet [BEq α] (m : List (α × β)) (k : α) : Option β :=
  (m.find? (fun p => p.1 == k)).map (fun p => p.2)

def dictInsert [BEq α] (m : List (α × β)) (k : α) (v : β) : List (α × β) :=
  if dictContains m k then
    m.map (fun p => if p.1 == k then (k, v) else p)
  else
    m ++ [(k, v)]

def dictUpdate [BEq α] (m new : List (α × β)) : List (α × β) :=
  new.foldl (fun acc p => dictInsert acc p.1 p.2) m

def dictPop [BEq α] (m : List (α × β)) (k : α) : List (α × β) :=
  m.filter (fun p => !(p.1 == k))

def dictEqb [BEq α] [BEq β] (m₁ m₂ : List (α × β)) : Bool :=
  m₁.all (fun p => dictGet m₂ p.1 == some p.2) &&
    m₂.all (fun p => dictGet m₁ p.1 == some p.2)

/-- Keys of an association list are pairwise distinct (every Python dict
satisfies this). -/
def keysNodup (m : List (α × β)) : Prop :=
  (m.map (fun p => p.1)).Nodup

/-! ## Python string helpers

Character-level models of the `str` methods the embedded code uses.  The
whitespace set is the ASCII/Latin-1 part of Python's definition, which is
exact for every string the embedded code manipulates. -/

def pyIsSpace (c : Char) : Bool :=
  c = ' ' || c = '\t' || c = '\n' || c = '\r' ||
    c = Char.ofNat 11 || c = Char.ofNat 12 ||
    c = Char.ofNat 28 || c = Char.ofNat 29 || c = Char.ofNat 30 ||
    c = Char.ofNat 133 || c = Char.ofNat 160 ||
    c = Char.ofNat 8232 || c = Char.ofNat 8233

/-- Python `str.strip()` with no arguments. -/
def pyStrip (s : List Char) : List Char :=
  ((s.dropWhile pyIsSpace).reverse.dropWhile pyIsSpace).reverse

/-- Python `str.lower()` restricted to ASCII letters (the only letters the
embedded code lower-cases). -/
def pyLowerChar (c : Char) : Char :=
  if 'A' ≤ c && c ≤ 'Z' then Char.ofNat (c.toNat + 32) else c

def pyLower (s : List Char) : List Char :=
  s.map pyLowerChar

/-- Python `needle in haystack` on strings (substring containment). -/
def listIsInfix (needle : List Char) : List Char → Bool
  | [] => needle.isEmpty
  | c :: rest => needle.isPrefixOf (c :: rest) || listIsInfix needle rest

def pyStripS (s : String) : String := String.mk (pyStrip s.toList)

def pyLowerS (s : String) : String := String.mk (pyLower s.toList)

def strContainsSub (needle hay : String) : Bool :=
  listIsInfix needle.toList hay.toList

/-- Python `s.startswith(pre)`. -/
def strStartsWith (pre s : String) : Bool :=
  pre.toList.isPrefixOf s.toList

/-- Drop the first `n` characters of a string (`s[n:]`). -/
def strDropChars (n : Nat) (s : String) : String :=
  String.mk (s.toList.drop n)

/-- Python `a or b` for optional strings: the empty string and `None` are
falsy. -/
def pyTruthyStr : Option String → Option String
  | some s => if s = "" then none else some s
  | none => none

/-- `payload.get(k1) or payload.get(k2) or default`. -/
def firstNonEmpty (a b : Option String) (dflt : String) : String :=
  match pyTruthyStr a with
  | some s => s
  | none =>
    match pyTruthyStr b with
    | some s => s
    | none => dflt

/-- `x or y` where `x : str | None` and the result may keep `y : str | None`. -/
def pyOrOpt (a b : Option String) : Option String :=
  match pyTruthyStr a with
  | some s => some s
  | none => b

/-! ## Control-plane data model (`app/models.py`)

Only the columns the verified claims read or write are carried. -/

structure TenantRow where
  id : String
  ownerUserId : Nat
  status : String
  workerId : String
  deriving DecidableEq, Repr

structure TenantRuntimeRow where
  tenantId : String
  desiredState : String
  actualState : String
  lastHeartbeat : Option Nat
  lastError : Option String
  deriving DecidableEq, Repr

structure ConfigRevisionRow where
  tenantId : String
  revision : Nat
  envJson : List (String × String)
  isActive : Bool
  deriving DecidableEq, Repr

structure PromptRevisionRow where
  tenantId : String
  name : String
  revision : Nat
  content : String
  isActive : Bool
  deriving DecidableEq, Repr

structure SkillRevisionRow where
  tenantId : String
  skillId : String
  revision : Nat
  content : String
  isActive : Bool
  deriving DecidableEq, Repr

/-- An event handed to `EventManager.emit` (payload modelled as a string
map, which covers every payload the verified flows build). -/
structure EmittedEvent where
  tenantId : String
  type : String
  payload : List (String × String)
  deriving DecidableEq, Repr

/-- The durable control-plane state owned by one database, plus the ordered
log of events emitted through the event manager. -/
structure CPState where
  tenants : List TenantRow
  runtimes : List TenantRuntimeRow
  configRevs : List ConfigRevisionRow
  promptRevs : List PromptRevisionRow
  skillRevs : List SkillRevisionRow
  events : List EmittedEvent
  deriving DecidableEq, Repr

/-- `RunnerError` as raised by `app/runner_client.py`: a short code, a
message and the HTTP status the control plane surfaces for it. -/
structure RunnerError where
  code : String
  message : String
  statusCode : Nat
  deriving DecidableEq, Repr

/-- The six runtime states shared by `Tenant.status` and
`TenantRuntime.actual_state` (spec section 3). -/
def stateSet : List String :=
  ["provisioning", "pending_pairing", "running", "paused", "error", "deleted"]

/-! ## Runtime state projection (`app/events.py`, `_project_runtime_state`)

The JSON payload of an event is modelled by the three fields the projector
reads; a field that is absent or not a string is `none` (the
`isinstance(state, str)` guard makes both behave identically). -/

structure EventPayload where
  state : Option String := none
  message : Option String := none
  error : Option String := none
  deriving DecidableEq, Repr

/-- The `mapped_state`/`mapped_error` pair computed by
`_project_runtime_state` from the event type and payload. -/
def projectionMapped (eventType : String) (payload : EventPayload) :
    Option String × Option String :=
  if eventType = "runtime.status" then
    match payload.state with
    | some s =>
      if s ≠ "" then
        (some s,
          if s = "error" then
            some (firstNonEmpty payload.message payload.error "runtime_error")
          else none)
      else (none, none)
    | none => (none, none)
  else if eventType = "runtime.error" then
    (some "error", some (firstNonEmpty payload.message payload.error "runtime_error"))
  else if eventType = "whatsapp.connected" then (some "running", none)
  else if eventType = "whatsapp.disconnected" then (some "pending_pairing", none)
  else (none, none)

/-- `EventManager._project_runtime_state`: given the tenant's runtime row
and tenant row (as found by the two selects), the event type and payload,
return the updated rows.  `now` stands for `datetime.now(UTC)`. -/
def projectRuntimeState (runtime : Option TenantRuntimeRow) (tenant : Option TenantRow)
    (eventType : String) (payload : EventPayload) (now : Nat) :
    Option TenantRuntimeRow × Option TenantRow :=
  match runtime with
  | none => (none, tenant)
  | some rt =>
    match projectionMapped eventType payload with
    | (none, _) => (some rt, tenant)
    | (some s, mappedError) =>
      let rt' : TenantRuntimeRow :=
        { rt with
          actualState := s
          lastHeartbeat := some now
          lastError := if s = "error" then pyOrOpt mappedError rt.lastError else none }
      (some rt', tenant.map (fun t => { t with status := s }))

/-! ## WebSocket subscription (`app/routers/events_ws.py`)

The decision prefix of `events_ws`, up to accepting and registering the
connection.  `decodeTok` stands for `security.decode_app_token` (the jose
JWT library): it returns the claims of a valid token and `none` when
decoding raises `JWTError`. -/

structure AccessClaims where
  sub : Nat
  tokenType : String
  deriving DecidableEq, Repr

/-- Query parameters of `GET /v1/events/ws` that the handler's accept/reject
decision could observe. -/
structure WsQuery where
  token : Option String
  tenantId : Option String
  deriving DecidableEq, Repr

inductive WsOutcome where
  | close1008
  | accepted (tenantId : String)
  deriving DecidableEq, Repr

/-- `events_ws` accept/reject decision.  Mirrors the source line by line:
missing/empty token, `JWTError`, non-access token and an owner without a
tenant all close with 1008; otherwise the connection is accepted scoped to
the caller's owned tenant.  The `tenant_id` query parameter is never read
by the source. -/
def eventsWsDecision (decodeTok : String → Option AccessClaims)
    (tenants : List TenantRow) (q : WsQuery) : WsOutcome :=
  match q.token with
  | none => .close1008
  | some tok =>
    if tok = "" then .close1008
    else
      match decodeTok tok with
      | none => .close1008
      | some claims =>
        if claims.tokenType ≠ "access" then .close1008
        else
          match tenants.find? (fun t => t.ownerUserId == claims.sub) with
          | none => .close1008
          | some tenant => .accepted tenant.id

/-! ## Runner internal authentication (`runner/app/auth.py`, `runner/app/main.py`) -/

structure RunnerTokenClaims where
  tenantId : String
  action : String
  deriving DecidableEq, Repr

inductive AuthOutcome where
  | ok (claims : RunnerTokenClaims)
  | authError (code message : String)
  deriving DecidableEq, Repr

/-- `verify_internal_token`.  `decoded` is the outcome of
`jose.jwt.decode(token, secret, algorithms=[alg], audience="runner")`:
`none` models `JWTError` (bad signature, wrong audience, expiry). -/
def verifyInternalToken (decoded : Option RunnerTokenClaims)
    (tenantId action : String) : AuthOutcome :=
  match decoded with
  | none => .authError "invalid_token" "Invalid internal JWT"
  | some claims =>
    if claims.tenantId ≠ tenantId then
      .authError "tenant_scope_mismatch" "tenant_id mismatch"
    else if claims.action ≠ action then
      .authError "action_scope_mismatch" "action mismatch"
    else .ok claims

structure HTTPDetail where
  status : Nat
  error : String
  message : String
  deriving DecidableEq, Repr

/-- `require_internal_auth`: `none` means the request passes; otherwise the
`HTTPException` raised.  `decodeTok` is the jose decode oracle applied to
the bearer token text. -/
def requireInternalAuth (decodeTok : String → Option RunnerTokenClaims)
    (authorization : Option String) (tenantId action : String) : Option HTTPDetail :=
  match authorization with
  | none => some ⟨401, "missing_bearer_token", "Missing bearer token"⟩
  | some auth =>
    if auth = "" || !(strStartsWith "Bearer " auth) then
      some ⟨401, "missing_bearer_token", "Missing bearer token"⟩
    else
      match verifyInternalToken (decodeTok (strDropChars 7 auth)) tenantId action with
      | .authError code msg => some ⟨403, code, msg⟩
      | .ok _ => none

/-! ## Config patch (`app/routers/tenants.py`, `patch_config`)

`ConfigPatchRequest` in `app/schemas.py` declares exactly one field,
`values`; pydantic (default `extra="ignore"`) drops any other input key at
validation and raises `AttributeError` when an undeclared attribute is
read.  The handler reads `body.remove_keys`, so the attribute access is
modelled explicitly against the declared field list. -/

def configPatchRequestFields : List String := ["values"]

inductive PatchResult where
  /-- An `HTTPException` raised by the handler. -/
  | httpError (status : Nat) (error : String)
  /-- An exception FastAPI does not handle (`AttributeError`): HTTP 500,
  session closed without commit. -/
  | serverError
  /-- A `ConfigOut` response. -/
  | config (tenantId : String) (revision : Nat) (env : List (String × String))
  deriving DecidableEq, Repr

/-- `select(func.max(ConfigRevision.revision)).where(tenant_id == tid)` with
`or 0`. -/
def maxConfigRevision (revs : List ConfigRevisionRow) (tid : String) : Nat :=
  (revs.filter (fun r => r.tenantId == tid)).foldl (fun a r => max a r.revision) 0

/-- `PATCH /v1/tenants/{tenant_id}/config`.  `bodyValues`/`bodyRemoveKeys`
are the two keys of the request JSON; `runnerResult` is the oracle outcome
of `runner.apply_config` (never consulted on paths that do not reach the
call).  Returns the response, the post-state, and whether the Runner was
called. -/
def patchConfig (st : CPState) (userId : Nat) (tenantId : String)
    (bodyValues : List (String × String)) (bodyRemoveKeys : List String)
    (runnerResult : Except RunnerError Unit) :
    PatchResult × CPState × Bool :=
  match st.tenants.find? (fun t => t.id == tenantId && t.ownerUserId == userId) with
  | none => (.httpError 404 "tenant_not_found", st, false)
  | some _ =>
    match st.configRevs.find? (fun r => r.tenantId == tenantId && r.isActive) with
    | none => (.httpError 404 "config_not_found", st, false)
    | some active =>
      if "remove_keys" ∈ configPatchRequestFields then
        let merged₀ := dictUpdate active.envJson bodyValues
        let merged := bodyRemoveKeys.foldl (fun acc k => dictPop acc k) merged₀
        if dictEqb merged active.envJson then
          (.config tenantId active.revision active.envJson, st, false)
        else
          let nextRev := maxConfigRevision st.configRevs tenantId + 1
          match runnerResult with
          | .error e =>
            -- `_runner_call` emits `runtime.error` and raises; the pending
            -- insert of the inactive revision is rolled back on close.
            (.httpError e.statusCode e.code,
              { st with
                events := st.events ++
                  [⟨tenantId, "runtime.error",
                    [("error", e.code), ("message", e.message), ("action", "apply_config")]⟩] },
              true)
          | .ok _ =>
            let deactivated := st.configRevs.map fun r =>
              if r.tenantId == tenantId then { r with isActive := false } else r
            (.config tenantId nextRev merged,
              { st with
                configRevs := deactivated ++ [⟨tenantId, nextRev, merged, true⟩]
                events := st.events ++ [⟨tenantId, "config.applied", [("revision", toString nextRev)]⟩] },
              true)
      else
        -- `body.remove_keys` raises AttributeError before the merge.
        (.serverError, st, false)

/-! ## Tenant setup (`app/routers/tenants.py`, `setup_tenant`) -/

/-- The env defaults built inline by `setup_tenant`. -/
def setupDefaultEnv : List (String × String) :=
  [("NEXUS_CLI_ENABLED", "false"),
   ("NEXUS_CONFIG_DIR", "/data/config"),
   ("NEXUS_DATA_DIR", "/data/state"),
   ("NEXUS_PROMPTS_DIR", "/data/config/prompts"),
   ("NEXUS_SKILLS_DIR", "/data/config/skills")]

def nexusImagePlaceholders : List String := ["replace_with", "your-org", "<org>"]

/-- `_require_valid_nexus_image` as a predicate: the stripped image string
is non-empty and its lower-casing contains no placeholder marker. -/
def validNexusImage (raw : String) : Bool :=
  let image := pyStripS raw
  let lowered := pyLowerS image
  image ≠ "" && nexusImagePlaceholders.all (fun m => !(strContainsSub m lowered))

/-- The merged initial env of `setup_tenant`: the inline defaults updated
with `body.initial_config` when the latter is truthy. -/
def setupInitialEnv (initialConfig : Option (List (String × String))) :
    List (String × String) :=
  match initialConfig with
  | some cfg => if cfg.isEmpty then setupDefaultEnv else dictUpdate setupDefaultEnv cfg
  | none => setupDefaultEnv

/-- `_has_openrouter_api_key`: the key is present and its stripped string
value is non-empty. -/
def hasOpenrouterApiKey (env : List (String × String)) : Bool :=
  match dictGet env "NEXUS_OPENROUTER_API_KEY" with
  | none => false
  | some v => pyStripS v ≠ ""

inductive SetupResult where
  | tenant (t : TenantRow)
  | httpError (status : Nat) (error : String)
  deriving DecidableEq, Repr

/-- `POST /v1/tenants/setup`.  Oracle parameters: `promptDefaults` and
`skillDefaults` stand for `PROMPT_DEFAULTS`/`SKILL_DEFAULTS` of
`app/assistant_defaults.py`; `freshTenantId` for `secrets.token_hex(8)`;
`now` for `datetime.now(UTC)`; `provisionResult` for the outcome of
`runner.provision`.  The model takes the commit path in which the database
reports no integrity conflict (the retry loop of the source only re-runs
the same insert or re-reads an existing tenant, which the sequential
embedding cannot race against).  Returns the response, the post-state, and
whether the Runner was called. -/
def setupTenant (st : CPState) (userId : Nat)
    (initialConfig : Option (List (String × String))) (settingsNexusImage : String)
    (promptDefaults skillDefaults : List (String × String))
    (freshTenantId : String) (now : Nat)
    (provisionResult : Except RunnerError Unit) :
    SetupResult × CPState × Bool :=
  match st.tenants.find? (fun t => t.ownerUserId == userId) with
  | some existing => (.tenant existing, st, false)
  | none =>
    if validNexusImage settingsNexusImage then
      let initialEnv := setupInitialEnv initialConfig
      if hasOpenrouterApiKey initialEnv then
        let tenant : TenantRow :=
          ⟨freshTenantId, userId, "provisioning", "worker-" ++ freshTenantId⟩
        let runtime : TenantRuntimeRow := ⟨freshTenantId, "stopped", "provisioning", none, none⟩
        let configRev : ConfigRevisionRow := ⟨freshTenantId, 1, initialEnv, true⟩
        let promptRevs := promptDefaults.map fun p =>
          (⟨freshTenantId, p.1, 1, p.2, true⟩ : PromptRevisionRow)
        let skillRevs := skillDefaults.map fun p =>
          (⟨freshTenantId, p.1, 1, p.2, true⟩ : SkillRevisionRow)
        match provisionResult with
        | .ok _ =>
          let tenant' := { tenant with status := "pending_pairing" }
          let runtime' := { runtime with
            desiredState := "running", actualState := "pending_pairing", lastHeartbeat := some now }
          (.tenant tenant',
            { st with
              tenants := st.tenants ++ [tenant']
              runtimes := st.runtimes ++ [runtime']
              configRevs := st.configRevs ++ [configRev]
              promptRevs := st.promptRevs ++ promptRevs
              skillRevs := st.skillRevs ++ skillRevs
              events := st.events ++
                [⟨freshTenantId, "runtime.status", [("state", "pending_pairing")]⟩] },
            true)
        | .error e =>
          let tenant' := { tenant with status := "error" }
          let runtime' := { runtime with
            actualState := "error", lastError := some (e.code ++ ": " ++ e.message) }
          (.tenant tenant',
            { st with
              tenants := st.tenants ++ [tenant']
              runtimes := st.runtimes ++ [runtime']
              configRevs := st.configRevs ++ [configRev]
              promptRevs := st.promptRevs ++ promptRevs
              skillRevs := st.skillRevs ++ skillRevs
              events := st.events ++
                [⟨freshTenantId, "runtime.error", [("error", e.code), ("message", e.message)]⟩] },
            true)
      else (.httpError 400 "openrouter_api_key_required", st, false)
    else (.httpError 400 "nexus_image_invalid", st, false)

/-- `n` consecutive `POST /v1/tenants/setup` calls by the same caller with
the same inputs, collecting the responses. -/
def setupIterate (n : Nat) (st : CPState) (userId : Nat)
    (initialConfig : Option (List (String × String))) (settingsNexusImage : String)
    (promptDefaults skillDefaults : List (String × String))
    (freshTenantId : String) (now : Nat)
    (provisionResult : Except RunnerError Unit) : List SetupResult × CPState :=
  match n with
  | 0 => ([], st)
  | Nat.succ m =>
    let step := setupTenant st userId initialConfig settingsNexusImage
      promptDefaults skillDefaults freshTenantId now provisionResult
    let rest := setupIterate m step.2.1 userId initialConfig settingsNexusImage
      promptDefaults skillDefaults freshTenantId now provisionResult
    (step.1 :: rest.1, rest.2)

/-! ## Secret cipher (`app/crypto.py`)

`encrypt` base64-encodes a random nonce and the AES-GCM ciphertext of the
JSON serialization of the payload; `decrypt` inverts the chain.  Base64
(RFC 4648, standard alphabet, with padding — the behaviour of
`base64.b64encode`/`b64decode` on well-formed input) is modelled
concretely on byte lists; the AES-GCM primitive of the `cryptography`
package and `json.dumps`/`json.loads` are external collaborators passed as
parameters and constrained by their documented contracts in the theorems. -/

/-- The base64 alphabet: sextet value to ASCII code. -/
def b64EncChar (s : Nat) : Nat :=
  if s < 26 then 65 + s
  else if s < 52 then 71 + s
  else if s < 62 then s - 4
  else if s = 62 then 43
  else 47

/-- ASCII code back to sextet value; `none` off the alphabet. -/
def b64DecChar (c : Nat) : Option Nat :=
  if 65 ≤ c && c ≤ 90 then some (c - 65)
  else if 97 ≤ c && c ≤ 122 then some (c - 71)
  else if 48 ≤ c && c ≤ 57 then some (c + 4)
  else if c = 43 then some 62
  else if c = 47 then some 63
  else none

/-- `base64.b64encode` on a byte list, producing ASCII codes (61 = the
padding character). -/
def b64Encode : List Nat → List Nat
  | [] => []
  | [b₁] => [b64EncChar (b₁ / 4), b64EncChar (b₁ % 4 * 16), 61, 61]
  | [b₁, b₂] =>
    [b64EncChar (b₁ / 4), b64EncChar (b₁ % 4 * 16 + b₂ / 16), b64EncChar (b₂ % 16 * 4), 61]
  | b₁ :: b₂ :: b₃ :: rest =>
    b64EncChar (b₁ / 4) :: b64EncChar (b₁ % 4 * 16 + b₂ / 16) ::
      b64EncChar (b₂ % 16 * 4 + b₃ / 64) :: b64EncChar (b₃ % 64) :: b64Encode rest

/-- `base64.b64decode` on well-padded input. -/
def b64Decode : List Nat → Option (List Nat)
  | [] => some []
  | c₁ :: c₂ :: c₃ :: c₄ :: rest =>
    match b64DecChar c₁, b64DecChar c₂ with
    | some s₁, some s₂ =>
      if c₃ = 61 && c₄ = 61 && rest.isEmpty then
        some [s₁ * 4 + s₂ / 16]
      else if c₄ = 61 && rest.isEmpty then
        match b64DecChar c₃ with
        | some s₃ => some [s₁ * 4 + s₂ / 16, s₂ % 16 * 16 + s₃ / 4]
        | none => none
      else
        match b64DecChar c₃, b64DecChar c₄, b64Decode rest with
        | some s₃, some s₄, some tail =>
          some ((s₁ * 4 + s₂ / 16) :: (s₂ % 16 * 16 + s₃ / 4) :: (s₃ % 4 * 64 + s₄) :: tail)
        | _, _, _ => none
    | _, _ => none
  | _ => none

/-- The blob returned by `SecretCipher.encrypt`: base64 text stored as
ASCII code lists. -/
structure SecretBlob where
  nonceB64 : List Nat
  ciphertextB64 : List Nat
  deriving DecidableEq, Repr

/-- `SecretCipher.encrypt`.  `jsonDumps` stands for
`json.dumps(payload).encode("utf-8")`; `aeadEncrypt key nonce plaintext`
for `AESGCM(key).encrypt(nonce, plaintext, None)`; `nonce` for
`os.urandom(12)`. -/
def secretCipherEncrypt (jsonDumps : α → List Nat)
    (aeadEncrypt : List Nat → List Nat → List Nat → List Nat)
    (key nonce : List Nat) (payload : α) : SecretBlob :=
  ⟨b64Encode nonce, b64Encode (aeadEncrypt key nonce (jsonDumps payload))⟩

/-- `SecretCipher.decrypt`.  `aeadDecrypt` returns `none` when the
`cryptography` library raises (`InvalidTag`); `jsonLoads` is
`json.loads`. -/
def secretCipherDecrypt (jsonLoads : List Nat → Option α)
    (aeadDecrypt : List Nat → List Nat → List Nat → Option (List Nat))
    (key : List Nat) (blob : SecretBlob) : Option α :=
  match b64Decode blob.nonceB64, b64Decode blob.ciphertextB64 with
  | some nonce, some ciphertext =>
    match aeadDecrypt key nonce ciphertext with
    | some plaintext => jsonLoads plaintext
    | none => none
  | _, _ => none

/-! ## Runtime env file (`runner/app/runtime_manager.py`)

`write_runtime_env` and `read_runtime_env` operate on the text of
`env/runtime.env`; the file is modelled as a `List Char` (`none` when the
file does not exist).  `str.splitlines` uses Python's line-boundary set. -/

def isLineBoundary (c : Char) : Bool :=
  c = '\n' || c = '\r' || c = Char.ofNat 11 || c = Char.ofNat 12 ||
    c = Char.ofNat 28 || c = Char.ofNat 29 || c = Char.ofNat 30 ||
    c = Char.ofNat 133 || c = Char.ofNat 8232 || c = Char.ofNat 8233

/-- Python `str.splitlines()`: split at every line boundary, treating
`"\r\n"` as a single boundary, with no empty trailing piece. -/
def pySplitlinesGo : List Char → List Char → List (List Char)
  | [], acc => if acc.isEmpty then [] else [acc.reverse]
  | [c], acc =>
    if isLineBoundary c then acc.reverse :: pySplitlinesGo [] []
    else pySplitlinesGo [] (c :: acc)
  | c₁ :: c₂ :: rest, acc =>
    if c₁ = '\r' && c₂ = '\n' then acc.reverse :: pySplitlinesGo rest []
    else if isLineBoundary c₁ then acc.reverse :: pySplitlinesGo (c₂ :: rest) []
    else pySplitlinesGo (c₂ :: rest) (c₁ :: acc)

def pySplitlines (s : List Char) : List (List Char) :=
  pySplitlinesGo s []

/-- `str(v).replace("\n", "\\n")` used when rendering an env value. -/
def escapeNl (v : List Char) : List Char :=
  v.flatMap fun c => if c = '\n' then ['\\', 'n'] else [c]

/-- `value.replace("\\n", "\n")` used when parsing an env value (CPython
`replace` scans left to right over non-overlapping occurrences). -/
def unescapeNl : List Char → List Char
  | [] => []
  | [c] => [c]
  | c₁ :: c₂ :: rest =>
    if c₁ = '\\' && c₂ = 'n' then '\n' :: unescapeNl rest
    else c₁ :: unescapeNl (c₂ :: rest)

def squote : Char := Char.ofNat 39

/-- The quote-stripping step of `read_runtime_env`:
`value[1:-1]` when the value starts and ends with the same quote. -/
def stripEnvQuotes (v : List Char) : List Char :=
  match v with
  | [] => []
  | c :: rest =>
    if (c = '"' && (c :: rest).getLast? = some '"') ||
        (c = squote && (c :: rest).getLast? = some squote) then
      rest.dropLast
    else c :: rest

/-- `line.split("=", 1)`, applicable only when the line contains `'='`. -/
def splitFirstEq (l : List Char) : List Char × List Char :=
  (l.takeWhile (fun c => c != '='), (l.dropWhile (fun c => c != '=')).tail)

def exportSpace : List Char := ['e', 'x', 'p', 'o', 'r', 't', ' ']

/-- One iteration of the `read_runtime_env` parsing loop: `none` when the
line is skipped (blank, comment, no `'='`, or empty key). -/
def parseEnvLine (raw : List Char) : Option (List Char × List Char) :=
  let line := pyStrip raw
  if line.isEmpty then none
  else if line.head? = some '#' then none
  else
    let line := if exportSpace.isPrefixOf line then pyStrip (line.drop 7) else line
    if line.contains '=' then
      let kv := splitFirstEq line
      let key := pyStrip kv.1
      if key.isEmpty then none
      else
        let value := pyStrip kv.2
        some (key, unescapeNl (stripEnvQuotes value))
    else none

/-- `read_runtime_env` applied to the file text. -/
def readRuntimeEnvContent (content : List Char) : List (List Char × List Char) :=
  (pySplitlines content).foldl
    (fun acc raw =>
      match parseEnvLine raw with
      | some kv => dictInsert acc kv.1 kv.2
      | none => acc)
    []

/-- `read_runtime_env`: a missing file reads as the empty map. -/
def readRuntimeEnv (file : Option (List Char)) : List (List Char × List Char) :=
  match file with
  | none => []
  | some content => readRuntimeEnvContent content

def bridgeSecretKey : List Char := "BRIDGE_SHARED_SECRET".toList

/-- The literal defaults dictionary of `_default_runtime_env`
(`bridgePort` is `str(self.settings.bridge_port)`). -/
def hardcodedRuntimeDefaults (bridgePort : List Char) : List (List Char × List Char) :=
  [("NEXUS_CLI_ENABLED".toList, "false".toList),
   ("NEXUS_CONFIG_DIR".toList, "/data/config".toList),
   ("NEXUS_DATA_DIR".toList, "/data/state".toList),
   ("NEXUS_PROMPTS_DIR".toList, "/data/config/prompts".toList),
   ("NEXUS_SKILLS_DIR".toList, "/data/config/skills".toList),
   ("NEXUS_BRIDGE_WS_URL".toList, "ws://0.0.0.0:8765".toList),
   ("NEXUS_BRIDGE_BIND_HOST".toList, "0.0.0.0".toList),
   ("BRIDGE_HOST".toList, "0.0.0.0".toList),
   ("BRIDGE_PORT".toList, bridgePort),
   ("BRIDGE_QR_MODE".toList, "terminal".toList),
   ("BRIDGE_EXIT_ON_CONNECT".toList, "0".toList),
   ("BRIDGE_SESSION_DIR".toList, "/data/session".toList)]

/-- The template-parsing loop of `_default_runtime_env`: lines of the
rendered env template, stripped, skipping blanks / comments / lines without
`'='`; each surviving line overwrites `defaults[key.strip()]` with
`value.strip()` (no quote or escape handling on this path). -/
def parseTemplateLine (raw : List Char) : Option (List Char × List Char) :=
  let line := pyStrip raw
  if line.isEmpty then none
  else if line.head? = some '#' then none
  else if line.contains '=' then
    let kv := splitFirstEq line
    some (pyStrip kv.1, pyStrip kv.2)
  else none

/-- `_default_runtime_env(values)`: the hard-coded defaults overlaid with
the parsed rendered template.  `templateRendered` is the output of
`Template(template_text).safe_substitute({BRIDGE_SHARED_SECRET: …})`
(the `string.Template` engine is an external collaborator). -/
def defaultRuntimeEnv (templateRendered : List Char) (bridgePort : List Char) :
    List (List Char × List Char) :=
  (pySplitlines templateRendered).foldl
    (fun acc raw =>
      match parseTemplateLine raw with
      | some kv => dictInsert acc kv.1 kv.2
      | none => acc)
    (hardcodedRuntimeDefaults bridgePort)

/-- Python tuple comparison on `(str, str)` pairs, as used by
`sorted(defaults.items())`. -/
def charListLe : List Char → List Char → Bool
  | [], _ => true
  | _ :: _, [] => false
  | a :: as, b :: bs => if a = b then charListLe as bs else decide (a < b)

def envPairLe (p q : List Char × List Char) : Bool :=
  if p.1 = q.1 then charListLe p.2 q.2 else charListLe p.1 q.1

/-- The `merged_values` step of `write_runtime_env`: values, with
`BRIDGE_SHARED_SECRET` carried over from the existing file when the caller
did not supply it and the existing (stripped) value is non-empty. -/
def mergedWriteValues (values : List (List Char × List Char))
    (oldFile : Option (List Char)) : List (List Char × List Char) :=
  if dictContains values bridgeSecretKey then values
  else
    let existingSecret := pyStrip ((dictGet (readRuntimeEnv oldFile) bridgeSecretKey).getD [])
    if existingSecret.isEmpty then values
    else dictInsert values bridgeSecretKey existingSecret

/-- The dictionary whose sorted items `write_runtime_env` renders into the
file: `defaults.update(merged_values)`. -/
def writtenRuntimeEnvMap (values : List (List Char × List Char))
    (oldFile : Option (List Char)) (templateRender : List Char → List Char)
    (bridgePort : List Char) : List (List Char × List Char) :=
  let merged := mergedWriteValues values oldFile
  let rendered := templateRender ((dictGet merged bridgeSecretKey).getD [])
  dictUpdate (defaultRuntimeEnv rendered bridgePort) merged

/-- Stable insertion of one element into an already sorted list (`le` is
the comparator's `<=`). -/
def envInsert (le : α → α → Bool) (x : α) : List α → List α
  | [] => [x]
  | y :: ys => if le x y then x :: y :: ys else y :: envInsert le x ys

/-- Python `sorted` (a stable sort) on the items list. -/
def envSort (le : α → α → Bool) : List α → List α
  | [] => []
  | x :: xs => envInsert le x (envSort le xs)

def renderEnvLine (p : List Char × List Char) : List Char :=
  p.1 ++ '=' :: escapeNl p.2

/-- Python `"\n".join(lines)`. -/
def joinNl : List (List Char) → List Char
  | [] => []
  | [l] => l
  | l :: rest => l ++ '\n' :: joinNl rest

/-- `write_runtime_env`: the new text of `env/runtime.env` —
`"\n".join(f"{k}={v}" for sorted items) + "\n"`. -/
def writeRuntimeEnv (values : List (List Char × List Char))
    (oldFile : Option (List Char)) (templateRender : List Char → List Char)
    (bridgePort : List Char) : List Char :=
  let entries := envSort envPairLe (writtenRuntimeEnvMap values oldFile templateRender bridgePort)
  joinNl (entries.map renderEnvLine) ++ ['\n']

/-! ## Well-formedness predicates for the env-file round trip -/

/-- The value contains the two-character sequence backslash-`n` (which the
env-file unescape step would turn into a newline). -/
def hasBackslashN : List Char → Bool
  | [] => false
  | [_] => false
  | c₁ :: c₂ :: rest => (c₁ = '\\' && c₂ = 'n') || hasBackslashN (c₂ :: rest)

/-- The value starts and ends with the same (single or double) quote, the
condition under which `read_runtime_env` strips a character from each
end. -/
def quoteWrapped (v : List Char) : Bool :=
  (v.head? = some '"' && v.getLast? = some '"') ||
    (v.head? = some squote && v.getLast? = some squote)

/-- The key conditions of claim C10: non-empty, no whitespace, no `'='`,
not starting with `'#'` (with no whitespace, a key can also not start with
`"export "`). -/
def envKeyOk (k : List Char) : Prop :=
  k ≠ [] ∧ (∀ c ∈ k, pyIsSpace c = false) ∧ '=' ∉ k ∧ k.head? ≠ some '#'

/-- The value conditions of claim C10, amended: no leading or trailing
whitespace, not quote-wrapped, and — the amendment — no literal
backslash-`n` pair and no line-boundary character other than `'\n'`. -/
def envValueOk (v : List Char) : Prop :=
  pyStrip v = v ∧ quoteWrapped v = false ∧ hasBackslashN v = false ∧
    ∀ c ∈ v, c ≠ '\n' → isLineBoundary c = false

/-- What the round trip needs of every entry rendered into the file:
the key is non-empty, strip-stable, free of `'='` and line boundaries,
does not start with `'#'` or `"export "`, and the value contains no line
boundary other than `'\n'`.  (Each entry written by `write_runtime_env`
satisfies this; for entries contributed by the env template it is a
hypothesis on the template.) -/
def wfWriteEntry (e : List Char × List Char) : Prop :=
  e.1 ≠ [] ∧ pyStrip e.1 = e.1 ∧ '=' ∉ e.1 ∧ e.1.head? ≠ some '#' ∧
    exportSpace.isPrefixOf e.1 = false ∧
    (∀ c ∈ e.1, isLineBoundary c = false) ∧
    ∀ c ∈ e.2, c ≠ '\n' → isLineBoundary c = false

/-! ## Concrete fixtures used by evaluation theorems and witnesses -/

def tenantA : TenantRow := ⟨"t1", 1, "running", "worker-t1"⟩

def tenantB : TenantRow := ⟨"t2", 2, "running", "worker-t2"⟩

def activeRevA : ConfigRevisionRow :=
  ⟨"t1", 1, [("NEXUS_OPENROUTER_API_KEY", "sk-x")], true⟩

def runtimeA : TenantRuntimeRow := ⟨"t1", "running", "running", none, none⟩

/-- A state with one tenant whose owner is user 1 and one active config
revision. -/
def cpExample : CPState := ⟨[tenantA], [runtimeA], [activeRevA], [], [], []⟩

/-- A state with two tenants owned by users 1 and 2. -/
def cpTwoTenants : CPState := ⟨[tenantA, tenantB], [], [], [], [], []⟩

/-- A state with no tenants. -/
def cpEmpty : CPState := ⟨[], [], [], [], [], []⟩

/-- Token-decode oracle for the WebSocket examples: `"tok-b"` is the valid
access token of user 2, everything else fails to decode. -/
def wsDecodeExample : String → Option AccessClaims :=
  fun tok => if tok = "tok-b" then some ⟨2, "access"⟩ else none

/-- jose-decode oracle for the Runner examples: `"tok-1"` is a well-signed
runner-audience token whose claims carry `tenant_id="other123"` and
`action="stop"`. -/
def runnerDecodeExample : String → Option RunnerTokenClaims :=
  fun tok => if tok = "tok-1" then some ⟨"other123", "stop"⟩ else none

/-- Owner uniqueness of `Tenant.owner_user_id` (the `unique=True` column
constraint of `app/models.py`). -/
def ownersUnique (l : List TenantRow) : Prop :=
  ∀ a ∈ l, ∀ b ∈ l, a.ownerUserId = b.ownerUserId → a = b

/-! ## Theorems -/

/-- **C1.** The claim describes PATCH `/v1/tenants/{id}/config` under a
failing Runner `apply_config` call: the request should fail with the HTTP
error mapped from the `RunnerError` and leave the active revision set
unchanged.  The code cannot exhibit this behaviour: `ConfigPatchRequest`
declares only `values`, so the handler's read of `body.remove_keys` raises
`AttributeError` (HTTP 500) before a revision is proposed or the Runner is
called — for every Runner outcome the result is the unhandled server
error, the state is untouched, and the Runner is never invoked. -/
theorem patchConfig_runner_failure_hits_missing_remove_keys :
    ∀ runnerResult : Except RunnerError Unit,
      patchConfig cpExample 1 "t1" [("EXTRA_FLAG", "1")] [] runnerResult =
        (PatchResult.serverError, cpExample, false) :=
  fun _ => rfl

/-- **C7.** The claim says a PATCH whose merged env equals the active env
(in particular `{values:{}, remove_keys:[]}`) returns the current active
revision unchanged with no new revision and no Runner call.  The code
never reaches the no-op comparison: reading `body.remove_keys` raises
`AttributeError` (HTTP 500) for every PATCH request, so the no-op patch
does not return the current revision. -/
theorem patchConfig_noop_request_hits_missing_remove_keys :
    ∀ runnerResult : Except RunnerError Unit,
      patchConfig cpExample 1 "t1" [] [] runnerResult =
        (PatchResult.serverError, cpExample, false) :=
  fun _ => rfl

/-- **C5.** The claim says a WebSocket subscription whose `tenant_id` query
parameter differs from the caller's owned tenant is rejected with close
code 1008.  The handler never reads the `tenant_id` parameter: with a
valid access token of user 2 (owner of tenant `"t2"`) and
`tenant_id="t1"` (a foreign tenant), the connection is accepted scoped to
`"t2"` instead of being closed. -/
theorem eventsWs_ignores_mismatched_tenant_id_param :
    eventsWsDecision wsDecodeExample cpTwoTenants.tenants
        ⟨some "tok-b", some "t1"⟩ = WsOutcome.accepted "t2" ∧
      WsOutcome.accepted "t2" ≠ WsOutcome.close1008 ∧ "t1" ≠ "t2" :=
  ⟨rfl, by decide, by decide⟩

/-- **C4 counterexample.** The claim restricts `runtime.status` projection
to states in the state set.  The projector only checks that the state is a
non-empty string: projecting `runtime.status{state:"bogus"}` over a
running runtime sets `actual_state` (and `Tenant.status`) to `"bogus"`,
which is not in the state set. -/
theorem projectRuntimeState_accepts_state_outside_state_set :
    projectRuntimeState (some runtimeA) (some tenantA) "runtime.status"
        ⟨some "bogus", none, none⟩ 5 =
      (some ⟨"t1", "running", "bogus", some 5, none⟩,
        some ⟨"t1", 1, "bogus", "worker-t1"⟩) ∧
      "bogus" ∉ stateSet ∧ runtimeA.actualState ≠ "bogus" :=
  ⟨rfl, by decide, by decide⟩

/-- **C4 (amended).** During persist-and-broadcast, only `runtime.status`,
`runtime.error`, `whatsapp.connected` and `whatsapp.disconnected` mutate
the runtime/tenant rows; a `runtime.status` event with `payload.state = s`
sets `actual_state` to `s` for **every non-empty string** `s` (the
projector does not restrict `s` to the state set); `whatsapp.disconnected`
sets `actual_state` to `"pending_pairing"` regardless of the previous
value; and whenever the projection fires, `Tenant.status` is set equal to
the new `actual_state` in the same transaction. -/
theorem projectRuntimeState_projection_behaviour
    (rt : TenantRuntimeRow) (t : TenantRow) (et : String) (p : EventPayload) (now : Nat) :
    (et ∉ (["runtime.status", "runtime.error", "whatsapp.connected",
        "whatsapp.disconnected"] : List String) →
      projectRuntimeState (some rt) (some t) et p now = (some rt, some t)) ∧
    (∀ s : String, p.state = some s → s ≠ "" →
      ∃ rt₂ : TenantRuntimeRow,
        projectRuntimeState (some rt) (some t) "runtime.status" p now =
            (some rt₂, some { t with status := s }) ∧
          rt₂.actualState = s) ∧
    (∃ rt₂ : TenantRuntimeRow,
      projectRuntimeState (some rt) (some t) "whatsapp.disconnected" p now =
          (some rt₂, some { t with status := "pending_pairing" }) ∧
        rt₂.actualState = "pending_pairing") ∧
    (∀ rt' t', projectRuntimeState (some rt) (some t) et p now = (rt', t') →
      (rt' = some rt ∧ t' = some t) ∨
        ∃ rt₂ : TenantRuntimeRow,
          rt' = some rt₂ ∧ t' = some { t with status := rt₂.actualState }) := by
  refine ⟨?_, ?_, ?_, ?_⟩
  · intro h
    simp only [List.mem_cons, List.mem_singleton, not_or] at h
    obtain ⟨h₁, h₂, h₃, h₄, _⟩ := h
    simp [projectRuntimeState, projectionMapped, h₁, h₂, h₃, h₄]
  · intro s hs hne
    have hmap : projectionMapped "runtime.status" p =
        (some s,
          if s = "error" then some (firstNonEmpty p.message p.error "runtime_error")
          else none) := by
      simp [projectionMapped, hs, hne]
    refine ⟨{ rt with
        actualState := s
        lastHeartbeat := some now
        lastError := if s = "error" then
            pyOrOpt
              (if s = "error" then some (firstNonEmpty p.message p.error "runtime_error")
                else none)
              rt.lastError
          else none }, ?_, rfl⟩
    simp [projectRuntimeState, hmap]
  · have hmap : projectionMapped "whatsapp.disconnected" p =
        (some "pending_pairing", none) := by
      simp [projectionMapped]
    refine ⟨{ rt with
        actualState := "pending_pairing"
        lastHeartbeat := some now
        lastError := none }, ?_, rfl⟩
    simp [projectRuntimeState, hmap]
  · intro rt' t' h
    rw [projectRuntimeState] at h
    rcases hm : projectionMapped et p with ⟨ms, me⟩
    rw [hm] at h
    cases ms with
    | none =>
      left
      exact ⟨(Prod.mk.injEq _ _ _ _ ▸ h).1.symm, (Prod.mk.injEq _ _ _ _ ▸ h).2.symm⟩
    | some s =>
      right
      exact ⟨_, (Prod.mk.injEq _ _ _ _ ▸ h).1.symm, (Prod.mk.injEq _ _ _ _ ▸ h).2.symm⟩

/-- Witness for `projectRuntimeState_projection_behaviour` at concrete
inputs: a `config.applied` event leaves the rows unchanged, and a
`runtime.status{state:"paused"}` event projects into both rows. -/
theorem projectRuntimeState_projection_behaviour_witness :
    projectRuntimeState (some runtimeA) (some tenantA) "config.applied"
        ⟨none, none, none⟩ 7 = (some runtimeA, some tenantA) ∧
      ∃ rt₂ : TenantRuntimeRow,
        projectRuntimeState (some runtimeA) (some tenantA) "runtime.status"
            ⟨some "paused", none, none⟩ 7 =
          (some rt₂, some { tenantA with status := "paused" }) ∧
        rt₂.actualState = "paused" := by
  constructor
  · exact (projectRuntimeState_projection_behaviour runtimeA tenantA "config.applied"
      ⟨none, none, none⟩ 7).1 (by decide)
  · exact (projectRuntimeState_projection_behaviour runtimeA tenantA "runtime.status"
      ⟨some "paused", none, none⟩ 7).2.1 "paused" rfl (by decide)

/-- **C6 counterexample.** The claim asserts that *every* well-signed token
whose `action` claim differs from the endpoint's action is rejected with
`action_scope_mismatch`.  The verifier checks `tenant_id` first: a
well-signed token whose claims are `{tenant_id:"other123", action:"stop"}`
sent to the `start` endpoint of tenant `"abc123"` has a mismatched action
but is rejected with `tenant_scope_mismatch`. -/
theorem requireInternalAuth_both_mismatch_reports_tenant_scope :
    runnerDecodeExample "tok-1" = some ⟨"other123", "stop"⟩ ∧
      "stop" ≠ "start" ∧
      requireInternalAuth runnerDecodeExample (some "Bearer tok-1") "abc123" "start" =
        some ⟨403, "tenant_scope_mismatch", "tenant_id mismatch"⟩ ∧
      "tenant_scope_mismatch" ≠ "action_scope_mismatch" :=
  ⟨rfl, by decide, rfl, by decide⟩

/-- **C6 (amended).** For every well-signed runner token whose `tenant_id`
claim differs from the tenant id in the URL, the Runner rejects with HTTP
403 and code `tenant_scope_mismatch`; for every well-signed token whose
`tenant_id` matches the URL but whose `action` claim differs from the
endpoint's action, it rejects with HTTP 403 and code
`action_scope_mismatch`; a token that fails signature/audience decoding
yields the distinct code `invalid_token`; the three codes are pairwise
distinct. -/
theorem requireInternalAuth_scope_error_codes
    (decodeTok : String → Option RunnerTokenClaims) (tok tenantId action : String) :
    (∀ claims : RunnerTokenClaims, decodeTok tok = some claims →
      (claims.tenantId ≠ tenantId →
        requireInternalAuth decodeTok (some ("Bearer " ++ tok)) tenantId action =
          some ⟨403, "tenant_scope_mismatch", "tenant_id mismatch"⟩) ∧
      (claims.tenantId = tenantId → claims.action ≠ action →
        requireInternalAuth decodeTok (some ("Bearer " ++ tok)) tenantId action =
          some ⟨403, "action_scope_mismatch", "action mismatch"⟩)) ∧
    (decodeTok tok = none →
      requireInternalAuth decodeTok (some ("Bearer " ++ tok)) tenantId action =
        some ⟨403, "invalid_token", "Invalid internal JWT"⟩) ∧
    ("tenant_scope_mismatch" ≠ "action_scope_mismatch" ∧
      "tenant_scope_mismatch" ≠ "invalid_token" ∧
      "action_scope_mismatch" ≠ "invalid_token") := by
  have hne : ¬("Bearer " ++ tok = "") := by
    intro h
    have h₂ := congrArg String.data h
    rw [String.data_append] at h₂
    exact absurd (List.append_eq_nil.mp h₂).1 (by decide)
  have hpre : strStartsWith "Bearer " ("Bearer " ++ tok) = true := by
    show ("Bearer ".data).isPrefixOf (("Bearer " ++ tok).data) = true
    rw [String.data_append, List.isPrefixOf_iff_prefix]
    exact List.prefix_append _ _
  have hdrop : strDropChars 7 ("Bearer " ++ tok) = tok := by
    show String.mk ((("Bearer " ++ tok).data).drop 7) = tok
    rw [String.data_append, show (7 : Nat) = ("Bearer ".data).length from rfl,
      List.drop_left]
  refine ⟨?_, ?_, by decide, by decide, by decide⟩
  · intro claims hdec
    constructor
    · intro hten
      simp [requireInternalAuth, hne, hpre, hdrop, verifyInternalToken, hdec, hten]
    · intro hten hact
      simp [requireInternalAuth, hne, hpre, hdrop, verifyInternalToken, hdec, hten, hact]
  · intro hdec
    simp [requireInternalAuth, hne, hpre, hdrop, verifyInternalToken, hdec]

/-- Witness for `requireInternalAuth_scope_error_codes`: the concrete
oracle token with tenant claim `"other123"` against tenant `"abc123"` and
action `"stop"` is rejected as `tenant_scope_mismatch`. -/
theorem requireInternalAuth_scope_error_codes_witness :
    requireInternalAuth runnerDecodeExample (some ("Bearer " ++ "tok-1")) "abc123" "stop" =
      some ⟨403, "tenant_scope_mismatch", "tenant_id mismatch"⟩ :=
  (((requireInternalAuth_scope_error_codes runnerDecodeExample "tok-1" "abc123" "stop").1
    ⟨"other123", "stop"⟩ rfl).1) (by decide)

/-- **C8 counterexample.** The claim (following the spec's step ordering)
says the missing OpenRouter key is reported before image validation, so an
invalid image plus a missing key still yields
`openrouter_api_key_required`.  The handler validates the configured image
first: with the placeholder image and no `initial_config`, setup fails
with `nexus_image_invalid`, not `openrouter_api_key_required`, even
though the merged env also lacks the key. -/
theorem setupTenant_reports_image_error_before_missing_key :
    setupTenant cpEmpty 1 none "ghcr.io/your-org/nexus-runtime:sha-REPLACE_WITH_COMMIT"
        [] [] "t9" 0 (Except.ok ()) =
      (SetupResult.httpError 400 "nexus_image_invalid", cpEmpty, false) ∧
      hasOpenrouterApiKey setupDefaultEnv = false ∧
      SetupResult.httpError 400 "nexus_image_invalid" ≠
        SetupResult.httpError 400 "openrouter_api_key_required" :=
  ⟨rfl, rfl, by decide⟩

/-- **C8 (amended).** For every setup request by an owner with no existing
tenant, when the configured runtime image is valid but `initial_config`
merged with the default env lacks a non-empty `NEXUS_OPENROUTER_API_KEY`,
setup fails with HTTP 400 and error code `openrouter_api_key_required`,
the state is unchanged and the Runner is not called.  (The code performs
the image validation *before* the key validation, so when the image is
also invalid the image error is reported instead.) -/
theorem setupTenant_missing_openrouter_key_rejected
    (st : CPState) (userId : Nat) (initialConfig : Option (List (String × String)))
    (settingsNexusImage : String) (promptDefaults skillDefaults : List (String × String))
    (freshTenantId : String) (now : Nat) (provisionResult : Except RunnerError Unit)
    (hNoTenant : st.tenants.find? (fun t => t.ownerUserId == userId) = none)
    (hImage : validNexusImage settingsNexusImage = true)
    (hNoKey : hasOpenrouterApiKey (setupInitialEnv initialConfig) = false) :
    setupTenant st userId initialConfig settingsNexusImage promptDefaults skillDefaults
        freshTenantId now provisionResult =
      (SetupResult.httpError 400 "openrouter_api_key_required", st, false) := by
  simp [setupTenant, hNoTenant, hImage, hNoKey]

/-- Witness for `setupTenant_missing_openrouter_key_rejected`: an empty
database, a valid image, and an `initial_config` whose key value is
whitespace only. -/
theorem setupTenant_missing_openrouter_key_rejected_witness :
    setupTenant cpEmpty 1 (some [("NEXUS_OPENROUTER_API_KEY", " ")])
        "ghcr.io/acme/nexus-runtime:1.0" [] [] "t9" 0 (Except.ok ()) =
      (SetupResult.httpError 400 "openrouter_api_key_required", cpEmpty, false) :=
  setupTenant_missing_openrouter_key_rejected cpEmpty 1
    (some [("NEXUS_OPENROUTER_API_KEY", " ")]) "ghcr.io/acme/nexus-runtime:1.0"
    [] [] "t9" 0 (Except.ok ()) rfl (by decide) (by decide)

/-- Under the `owner_user_id` uniqueness constraint, the setup handler's
`select(Tenant).where(owner_user_id == uid)` finds exactly the tenant the
user owns. -/
theorem find_owner_unique (l : List TenantRow) (uid : Nat) (t : TenantRow)
    (hu : ∀ a ∈ l, ∀ b ∈ l, a.ownerUserId = b.ownerUserId → a = b)
    (ht : t ∈ l) (hown : t.ownerUserId = uid) :
    l.find? (fun x => x.ownerUserId == uid) = some t := by
  induction l with
  | nil => cases ht
  | cons hd tl ih =>
    by_cases hhd : hd.ownerUserId = uid
    · have heq : hd = t := by
        rcases List.mem_cons.mp ht with h | h
        · exact h.symm
        · exact hu hd (List.mem_cons_self hd tl) t (List.mem_cons_of_mem _ h)
            (hhd.trans hown.symm)
      subst heq
      simp [List.find?_cons, hhd]
    · have htl : t ∈ tl := by
        rcases List.mem_cons.mp ht with h | h
        · exact absurd (h ▸ hown) hhd
        · exact h
      have hrec := ih
        (fun a ha b hb => hu a (List.mem_cons_of_mem _ ha) b (List.mem_cons_of_mem _ hb)) htl
      simp [List.find?_cons, hhd, hrec]

/-- **C2.** `Tenant.owner_user_id` is unique (the column constraint of
`app/models.py`, taken as the state invariant `ownersUnique`), and for
every user who already owns a tenant, `POST /v1/tenants/setup` returns
that tenant unchanged with no side effects: the state (hence every table
and the event log) is untouched and the Runner is not called; iterating
the call any number of times returns the same tenant id every time and
leaves the state fixed. -/
theorem setupTenant_idempotent_for_existing_owner
    (st : CPState) (uid : Nat) (t : TenantRow)
    (hu : ownersUnique st.tenants) (ht : t ∈ st.tenants) (hown : t.ownerUserId = uid) :
    (∀ initialConfig settingsNexusImage promptDefaults skillDefaults freshTenantId now
        provisionResult,
      setupTenant st uid initialConfig settingsNexusImage promptDefaults skillDefaults
          freshTenantId now provisionResult = (SetupResult.tenant t, st, false)) ∧
    (∀ (n : Nat) initialConfig settingsNexusImage promptDefaults skillDefaults freshTenantId
        now provisionResult,
      setupIterate n st uid initialConfig settingsNexusImage promptDefaults skillDefaults
          freshTenantId now provisionResult =
        (List.replicate n (SetupResult.tenant t), st)) := by
  have hfind := find_owner_unique st.tenants uid t hu ht hown
  have hone : ∀ initialConfig settingsNexusImage promptDefaults skillDefaults freshTenantId
      now provisionResult,
      setupTenant st uid initialConfig settingsNexusImage promptDefaults skillDefaults
        freshTenantId now provisionResult = (SetupResult.tenant t, st, false) := by
    intro initialConfig settingsNexusImage promptDefaults skillDefaults freshTenantId now
      provisionResult
    simp [setupTenant, hfind]
  refine ⟨hone, ?_⟩
  intro n
  induction n with
  | zero => intro initialConfig img pd sd fid now pr; simp [setupIterate]
  | succ m ih =>
    intro initialConfig img pd sd fid now pr
    simp [setupIterate, hone, ih, List.replicate_succ]

/-- Witness for `setupTenant_idempotent_for_existing_owner`: user 1
already owns `tenantA` in `cpExample`; ten consecutive setup calls all
return it and leave the state unchanged. -/
theorem setupTenant_idempotent_for_existing_owner_witness :
    setupIterate 10 cpExample 1 none "ghcr.io/acme/nexus-runtime:1.0" [] [] "fresh" 0
        (Except.ok ()) =
      (List.replicate 10 (SetupResult.tenant tenantA), cpExample) :=
  (setupTenant_idempotent_for_existing_owner cpExample 1 tenantA
      (by unfold ownersUnique cpExample; decide) (by decide) rfl).2
    10 none "ghcr.io/acme/nexus-runtime:1.0" [] [] "fresh" 0 (Except.ok ())

/-- Decoding inverts the base64 alphabet on sextets. -/
theorem b64DecChar_encChar : ∀ s < 64, b64DecChar (b64EncChar s) = some s := by decide

/-- No sextet encodes to the padding character. -/
theorem b64EncChar_ne_61 : ∀ s < 64, b64EncChar s ≠ 61 := by decide

/-- `base64.b64decode` inverts `base64.b64encode` on byte lists. -/
theorem b64_roundtrip :
    ∀ bs : List Nat, (∀ b ∈ bs, b < 256) → b64Decode (b64Encode bs) = some bs
  | [], _ => rfl
  | [b₁], h => by
    have hb₁ : b₁ < 256 := h b₁ (by simp)
    have h₁ : b64DecChar (b64EncChar (b₁ / 4)) = some (b₁ / 4) :=
      b64DecChar_encChar _ (by omega)
    have h₂ : b64DecChar (b64EncChar (b₁ % 4 * 16)) = some (b₁ % 4 * 16) :=
      b64DecChar_encChar _ (by omega)
    simp [b64Encode, b64Decode, h₁, h₂]
    omega
  | [b₁, b₂], h => by
    have hb₁ : b₁ < 256 := h b₁ (by simp)
    have hb₂ : b₂ < 256 := h b₂ (by simp)
    have h₁ : b64DecChar (b64EncChar (b₁ / 4)) = some (b₁ / 4) :=
      b64DecChar_encChar _ (by omega)
    have h₂ : b64DecChar (b64EncChar (b₁ % 4 * 16 + b₂ / 16)) =
        some (b₁ % 4 * 16 + b₂ / 16) :=
      b64DecChar_encChar _ (by omega)
    have h₃ : b64DecChar (b64EncChar (b₂ % 16 * 4)) = some (b₂ % 16 * 4) :=
      b64DecChar_encChar _ (by omega)
    have hne₃ : b64EncChar (b₂ % 16 * 4) ≠ 61 := b64EncChar_ne_61 _ (by omega)
    simp [b64Encode, b64Decode, h₁, h₂, h₃, hne₃]
    omega
  | b₁ :: b₂ :: b₃ :: rest, h => by
    have hb₁ : b₁ < 256 := h b₁ (by simp)
    have hb₂ : b₂ < 256 := h b₂ (by simp)
    have hb₃ : b₃ < 256 := h b₃ (by simp)
    have h₁ : b64DecChar (b64EncChar (b₁ / 4)) = some (b₁ / 4) :=
      b64DecChar_encChar _ (by omega)
    have h₂ : b64DecChar (b64EncChar (b₁ % 4 * 16 + b₂ / 16)) =
        some (b₁ % 4 * 16 + b₂ / 16) :=
      b64DecChar_encChar _ (by omega)
    have h₃ : b64DecChar (b64EncChar (b₂ % 16 * 4 + b₃ / 64)) =
        some (b₂ % 16 * 4 + b₃ / 64) :=
      b64DecChar_encChar _ (by omega)
    have h₄ : b64DecChar (b64EncChar (b₃ % 64)) = some (b₃ % 64) :=
      b64DecChar_encChar _ (by omega)
    have hne₃ : b64EncChar (b₂ % 16 * 4 + b₃ / 64) ≠ 61 := b64EncChar_ne_61 _ (by omega)
    have hne₄ : b64EncChar (b₃ % 64) ≠ 61 := b64EncChar_ne_61 _ (by omega)
    have ih := b64_roundtrip rest (fun b hb => h b (by simp [hb]))
    simp [b64Encode, b64Decode, h₁, h₂, h₃, h₄, hne₃, hne₄, ih]
    omega

/-- **C3.** `SecretCipher.decrypt ∘ SecretCipher.encrypt` is the identity
on JSON-serializable payloads, for any fixed AES-GCM key of valid length.
The base64 layer is proved concretely (`b64_roundtrip`); the two external
collaborators are constrained by their documented contracts: `json.loads`
inverts `json.dumps`, `AESGCM(key).decrypt` inverts `AESGCM(key).encrypt`
under the same key and nonce, and both produce byte strings. -/
theorem secretCipher_roundtrip {α : Type} (jsonDumps : α → List Nat)
    (jsonLoads : List Nat → Option α)
    (aeadEncrypt : List Nat → List Nat → List Nat → List Nat)
    (aeadDecrypt : List Nat → List Nat → List Nat → Option (List Nat))
    (key nonce : List Nat) (payload : α)
    (hJson : jsonLoads (jsonDumps payload) = some payload)
    (hAead : aeadDecrypt key nonce (aeadEncrypt key nonce (jsonDumps payload)) =
      some (jsonDumps payload))
    (hNonceBytes : ∀ b ∈ nonce, b < 256)
    (hCipherBytes : ∀ b ∈ aeadEncrypt key nonce (jsonDumps payload), b < 256) :
    secretCipherDecrypt jsonLoads aeadDecrypt key
        (secretCipherEncrypt jsonDumps aeadEncrypt key nonce payload) = some payload := by
  simp [secretCipherEncrypt, secretCipherDecrypt, b64_roundtrip nonce hNonceBytes,
    b64_roundtrip _ hCipherBytes, hAead, hJson]

/-- Witness for `secretCipher_roundtrip`: a Boolean payload serialized to
single-byte strings, the identity AEAD, an all-zero 32-byte key and a
12-byte nonce. -/
theorem secretCipher_roundtrip_witness :
    secretCipherDecrypt
        (fun l => if l = [116] then some true else if l = [102] then some false else none)
        (fun _ _ c => some c) (List.replicate 32 0)
        (secretCipherEncrypt (fun b : Bool => if b then [116] else [102])
          (fun _ _ p => p) (List.replicate 32 0) (List.replicate 12 0) true) =
      some true :=
  secretCipher_roundtrip (fun b : Bool => if b then [116] else [102])
    (fun l => if l = [116] then some true else if l = [102] then some false else none)
    (fun _ _ p => p) (fun _ _ c => some c) (List.replicate 32 0) (List.replicate 12 0) true
    (by decide) rfl (by decide) (by decide)

/-! ### Dictionary lemmas -/

theorem dictGet_cons [BEq α] (p : α × β) (tl : List (α × β)) (k : α) :
    dictGet (p :: tl) k = if p.1 == k then some p.2 else dictGet tl k := by
  cases h : p.1 == k <;> simp [dictGet, List.find?_cons, h]

theorem dictContains_cons [BEq α] (p : α × β) (tl : List (α × β)) (k : α) :
    dictContains (p :: tl) k = (p.1 == k || dictContains tl k) := by
  simp [dictContains]

theorem dictGet_none_of_not_contains [BEq α] (m : List (α × β)) (k : α)
    (h : dictContains m k = false) : dictGet m k = none := by
  induction m with
  | nil => rfl
  | cons p tl ih =>
    rw [dictContains_cons] at h
    rcases Bool.or_eq_false_iff.mp h with ⟨h₁, h₂⟩
    rw [dictGet_cons, h₁]
    exact ih h₂
    
theorem dictContains_of_dictGet_some [BEq α] (m : List (α × β)) (k : α) (v : β)
    (h : dictGet m k = some v) : dictContains m k = true := by
  by_contra hc
  rw [dictGet_none_of_not_contains m k (Bool.not_eq_true _ ▸ hc)] at h
  cases h

theorem dictGet_map_overwrite [BEq α] [LawfulBEq α] (m : List (α × β)) (k : α) (v : β)
    (h : dictContains m k = true) :
    dictGet (m.map (fun p => if p.1 == k then (k, v) else p)) k = some v := by
  induction m with
  | nil => cases h
  | cons p tl ih =>
    rw [dictContains_cons] at h
    cases hp : p.1 == k with
    | true =>
      have hfp : (if p.1 == k then ((k, v) : α × β) else p) = (k, v) := by simp [hp]
      rw [List.map_cons, hfp, dictGet_cons]
      simp
    | false =>
      have hfp : (if p.1 == k then ((k, v) : α × β) else p) = p := by simp [hp]
      rw [List.map_cons, hfp, dictGet_cons]
      simp only [hp, Bool.false_eq_true, if_false]
      rw [hp] at h
      exact ih (by simpa using h)

theorem dictGet_append_single [BEq α] [LawfulBEq α] (m : List (α × β)) (k : α) (v : β)
    (h : dictContains m k = false) :
    dictGet (m ++ [(k, v)]) k = some v := by
  induction m with
  | nil => simp [dictGet]
  | cons p tl ih =>
    rw [dictContains_cons] at h
    rcases Bool.or_eq_false_iff.mp h with ⟨h₁, h₂⟩
    rw [List.cons_append, dictGet_cons, h₁]
    simp only [Bool.false_eq_true, if_false]
    exact ih h₂

/-- Looking up the inserted key finds the inserted value. -/
theorem dictGet_dictInsert_self [BEq α] [LawfulBEq α] (m : List (α × β)) (k : α) (v : β) :
    dictGet (dictInsert m k v) k = some v := by
  unfold dictInsert
  cases h : dictContains m k with
  | true => rw [if_pos rfl]; exact dictGet_map_overwrite m k v h
  | false =>
    rw [if_neg (by simp)]
    exact dictGet_append_single m k v h

/-- Overwriting occurrences of key `k` does not change lookups of `k' ≠ k`. -/
theorem dictGet_map_overwrite_ne [BEq α] [LawfulBEq α] (m : List (α × β)) (k k' : α) (v : β)
    (hne : k ≠ k') :
    dictGet (m.map (fun p => if p.1 == k then (k, v) else p)) k' = dictGet m k' := by
  have hkk : (k == k') = false := beq_eq_false_iff_ne.mpr hne
  induction m with
  | nil => rfl
  | cons p tl ih =>
    cases hp : p.1 == k with
    | true =>
      have hpk : p.1 = k := eq_of_beq hp
      have hpk' : (p.1 == k') = false := by rw [hpk]; exact hkk
      have hfp : (if p.1 == k then ((k, v) : α × β) else p) = (k, v) := by simp [hp]
      rw [List.map_cons, hfp, dictGet_cons, dictGet_cons, hkk, hpk']
      simp only [Bool.false_eq_true, if_false]
      exact ih
    | false =>
      have hfp : (if p.1 == k then ((k, v) : α × β) else p) = p := by simp [hp]
      rw [List.map_cons, hfp, dictGet_cons, dictGet_cons]
      cases hp' : p.1 == k' with
      | true => rfl
      | false => simp only [Bool.false_eq_true, if_false]; exact ih

/-- Appending an entry with a different key does not change a lookup. -/
theorem dictGet_append_single_ne [BEq α] (m : List (α × β)) (k k' : α) (v : β)
    (hkk : (k == k') = false) :
    dictGet (m ++ [(k, v)]) k' = dictGet m k' := by
  induction m with
  | nil => simp [dictGet, hkk]
  | cons p tl ih =>
    rw [List.cons_append, dictGet_cons, dictGet_cons]
    cases hp : p.1 == k' with
    | true => rfl
    | false =>
      simp only [Bool.false_eq_true, if_false]
      exact ih

/-- Inserting a different key does not change a lookup. -/
theorem dictGet_dictInsert_ne [BEq α] [LawfulBEq α] (m : List (α × β)) (k k' : α) (v : β)
    (hne : k ≠ k') :
    dictGet (dictInsert m k v) k' = dictGet m k' := by
  have hkk : (k == k') = false := beq_eq_false_iff_ne.mpr hne
  unfold dictInsert
  cases h : dictContains m k with
  | true =>
    rw [if_pos rfl]
    exact dictGet_map_overwrite_ne m k k' v hne
  | false =>
    rw [if_neg (by simp)]
    exact dictGet_append_single_ne m k k' v hkk

theorem dictContains_iff_mem_keys [BEq α] [LawfulBEq α] (m : List (α × β)) (k : α) :
    dictContains m k = true ↔ k ∈ m.map (fun p => p.1) := by
  simp only [dictContains, List.any_eq_true, List.mem_map, beq_iff_eq]

/-- `update` with a map that misses `k` does not change the lookup of `k`. -/
theorem dictGet_dictUpdate_of_none [BEq α] [LawfulBEq α]
    (m d : List (α × β)) (k : α) (h : dictGet m k = none) :
    dictGet (dictUpdate d m) k = dictGet d k := by
  induction m generalizing d with
  | nil => rfl
  | cons p tl ih =>
    rw [dictGet_cons] at h
    cases hp : p.1 == k with
    | true => rw [hp] at h; simp at h
    | false =>
      rw [hp] at h
      simp only [Bool.false_eq_true, if_false] at h
      show dictGet (dictUpdate (dictInsert d p.1 p.2) tl) k = dictGet d k
      rw [ih (dictInsert d p.1 p.2) h,
        dictGet_dictInsert_ne d p.1 k p.2 (beq_eq_false_iff_ne.mp hp)]

/-- `update` with a duplicate-free map that maps `k` to `v` makes the
lookup of `k` yield `v`. -/
theorem dictGet_dictUpdate_of_some [BEq α] [LawfulBEq α]
    (m d : List (α × β)) (k : α) (v : β)
    (hnd : keysNodup m) (h : dictGet m k = some v) :
    dictGet (dictUpdate d m) k = some v := by
  induction m generalizing d with
  | nil => cases h
  | cons p tl ih =>
    have hnd' := hnd
    simp only [keysNodup, List.map_cons, List.nodup_cons] at hnd'
    rw [dictGet_cons] at h
    cases hp : p.1 == k with
    | true =>
      rw [hp] at h
      simp only [if_true] at h
      have hk : p.1 = k := eq_of_beq hp
      have htl : dictGet tl k = none := by
        apply dictGet_none_of_not_contains
        cases hc : dictContains tl k with
        | true =>
          exact absurd (hk ▸ (dictContains_iff_mem_keys tl k).mp hc) hnd'.1
        | false => rfl
      show dictGet (dictUpdate (dictInsert d p.1 p.2) tl) k = some v
      rw [dictGet_dictUpdate_of_none tl (dictInsert d p.1 p.2) k htl, hk,
        dictGet_dictInsert_self]
      exact h
    | false =>
      rw [hp] at h
      simp only [Bool.false_eq_true, if_false] at h
      show dictGet (dictUpdate (dictInsert d p.1 p.2) tl) k = some v
      exact ih (dictInsert d p.1 p.2) hnd'.2 h

/-- `dictInsert` preserves duplicate-free keys. -/
theorem keysNodup_dictInsert [BEq α] [LawfulBEq α] (m : List (α × β)) (k : α) (v : β)
    (hnd : keysNodup m) : keysNodup (dictInsert m k v) := by
  unfold dictInsert
  cases h : dictContains m k with
  | true =>
    rw [if_pos rfl]
    have : (m.map (fun p => if p.1 == k then (k, v) else p)).map (fun p => p.1) =
        m.map (fun p => p.1) := by
      rw [List.map_map]
      apply List.map_congr_left
      intro p _
      cases hp : p.1 == k with
      | true => simp [hp, (eq_of_beq hp).symm]
      | false => simp [hp]
    unfold keysNodup
    rw [this]
    exact hnd
  | false =>
    rw [if_neg (by simp)]
    unfold keysNodup
    rw [List.map_append]
    have hk : k ∉ m.map (fun p => p.1) := fun hmem =>
      by rw [(dictContains_iff_mem_keys m k).mpr hmem] at h; cases h
    simp only [List.map_cons, List.map_nil]
    refine List.Nodup.append hnd (List.nodup_singleton k) ?_
    intro a ha hb
    rw [List.mem_singleton] at hb
    exact hk (hb ▸ ha)

/-- **C9.** `write_runtime_env` carries the bridge shared secret across
env rewrites: for every duplicate-free new env map `values` that does not
contain `BRIDGE_SHARED_SECRET`, when the current `runtime.env` file parses
to a non-empty (stripped) secret, the dictionary rendered into the
rewritten file maps `BRIDGE_SHARED_SECRET` to that existing secret; when
the caller does supply the key, the supplied value is written instead.
(`templateRender` is the rendered env template and `bridgePort` the
configured port; the statement holds for every such configuration.) -/
theorem writeRuntimeEnv_preserves_bridge_secret
    (values : List (List Char × List Char)) (oldFile : Option (List Char))
    (templateRender : List Char → List Char) (bridgePort : List Char)
    (hnd : keysNodup values) :
    (∀ secret : List Char,
      dictContains values bridgeSecretKey = false →
      pyStrip ((dictGet (readRuntimeEnv oldFile) bridgeSecretKey).getD []) = secret →
      secret ≠ [] →
      dictGet (writtenRuntimeEnvMap values oldFile templateRender bridgePort)
        bridgeSecretKey = some secret) ∧
    (∀ v : List Char,
      dictGet values bridgeSecretKey = some v →
      dictGet (writtenRuntimeEnvMap values oldFile templateRender bridgePort)
        bridgeSecretKey = some v) := by
  constructor
  · intro secret habsent hsecret hne
    have hmv : mergedWriteValues values oldFile =
        dictInsert values bridgeSecretKey secret := by
      unfold mergedWriteValues
      rw [habsent]
      simp only [Bool.false_eq_true, if_false, hsecret]
      rw [if_neg (by simpa [List.isEmpty_iff] using hne)]
    unfold writtenRuntimeEnvMap
    rw [hmv]
    exact dictGet_dictUpdate_of_some _ _ _ _
      (keysNodup_dictInsert values bridgeSecretKey secret hnd)
      (dictGet_dictInsert_self values bridgeSecretKey secret)
  · intro v hv
    have hmv : mergedWriteValues values oldFile = values := by
      unfold mergedWriteValues
      rw [dictContains_of_dictGet_some values bridgeSecretKey v hv]
      simp
    unfold writtenRuntimeEnvMap
    rw [hmv]
    exact dictGet_dictUpdate_of_some _ _ _ _ hnd hv

/-- Witness for `writeRuntimeEnv_preserves_bridge_secret`: rewriting a
tenant env that previously stored `BRIDGE_SHARED_SECRET=secret-v1` with a
map that only updates the OpenRouter key keeps the secret. -/
theorem writeRuntimeEnv_preserves_bridge_secret_witness :
    dictGet
        (writtenRuntimeEnvMap [("NEXUS_OPENROUTER_API_KEY".toList, "key-v2".toList)]
          (some ("BRIDGE_SHARED_SECRET=secret-v1\nNEXUS_OPENROUTER_API_KEY=key-v1\n".toList))
          (fun _ => []) "8765".toList)
        bridgeSecretKey = some "secret-v1".toList :=
  (writeRuntimeEnv_preserves_bridge_secret
      [("NEXUS_OPENROUTER_API_KEY".toList, "key-v2".toList)]
      (some ("BRIDGE_SHARED_SECRET=secret-v1\nNEXUS_OPENROUTER_API_KEY=key-v1\n".toList))
      (fun _ => []) "8765".toList (by unfold keysNodup; decide)).1
    "secret-v1".toList (by decide) (by decide) (by decide)

/-! ### Character and strip lemmas for the env-file round trip -/

theorem isLineBoundary_isSpace (c : Char) (h : isLineBoundary c = true) :
    pyIsSpace c = true := by
  simp only [isLineBoundary, Bool.or_eq_true, decide_eq_true_eq] at h
  simp only [pyIsSpace, Bool.or_eq_true, decide_eq_true_eq]
  tauto

theorem dropWhile_eq_self_of_head (p : Char → Bool) (l : List Char)
    (h : ∀ c, l.head? = some c → p c = false) : l.dropWhile p = l := by
  cases l with
  | nil => rfl
  | cons c t => rw [List.dropWhile_cons, h c rfl]; simp

theorem pyStrip_eq_self (l : List Char)
    (hh : ∀ c, l.head? = some c → pyIsSpace c = false)
    (hl : ∀ c, l.getLast? = some c → pyIsSpace c = false) : pyStrip l = l := by
  unfold pyStrip
  rw [dropWhile_eq_self_of_head pyIsSpace l hh]
  rw [dropWhile_eq_self_of_head pyIsSpace l.reverse (by simpa [List.head?_reverse] using hl)]
  exact List.reverse_reverse l

theorem noSpace_pyStrip (l : List Char) (h : ∀ c ∈ l, pyIsSpace c = false) :
    pyStrip l = l :=
  pyStrip_eq_self l (fun c hc => h c (List.mem_of_mem_head? hc))
    (fun c hc => h c (List.mem_of_mem_getLast? hc))

theorem pyStrip_head_not_space (l : List Char) (hs : pyStrip l = l) (c : Char)
    (hc : l.head? = some c) : pyIsSpace c = false := by
  cases l with
  | nil => cases hc
  | cons c₀ t =>
    have hceq : c₀ = c := by simpa using hc
    subst hceq
    by_contra hsp
    rw [Bool.not_eq_false] at hsp
    have hdrop : (c₀ :: t).dropWhile pyIsSpace = t.dropWhile pyIsSpace := by
      rw [List.dropWhile_cons, hsp]
      simp
    have hlen : (pyStrip (c₀ :: t)).length ≤ t.length := by
      unfold pyStrip
      rw [hdrop]
      calc ((t.dropWhile pyIsSpace).reverse.dropWhile pyIsSpace).reverse.length
          = ((t.dropWhile pyIsSpace).reverse.dropWhile pyIsSpace).length := by
            rw [List.length_reverse]
        _ ≤ (t.dropWhile pyIsSpace).reverse.length := (List.dropWhile_sublist _).length_le
        _ = (t.dropWhile pyIsSpace).length := by rw [List.length_reverse]
        _ ≤ t.length := (List.dropWhile_sublist _).length_le
    rw [hs] at hlen
    simp at hlen

theorem pyStrip_subset (l : List Char) : ∀ c ∈ pyStrip l, c ∈ l := by
  intro c hc
  unfold pyStrip at hc
  rw [List.mem_reverse] at hc
  have h₁ := (List.dropWhile_sublist (p := pyIsSpace)
    (l := (l.dropWhile pyIsSpace).reverse)).mem hc
  rw [List.mem_reverse] at h₁
  exact (List.dropWhile_sublist (p := pyIsSpace) (l := l)).mem h₁

theorem stripQuotes_subset (v : List Char) : ∀ c ∈ stripEnvQuotes v, c ∈ v := by
  intro c hc
  unfold stripEnvQuotes at hc
  split at hc
  · cases hc
  · split at hc
    · exact List.mem_cons_of_mem _ ((List.dropLast_sublist _).mem hc)
    · exact hc

theorem unescape_mem : ∀ l : List Char, ∀ c ∈ unescapeNl l, c ∈ l ∨ c = '\n'
  | [] => by intro c hc; cases hc
  | [x] => by
    intro c hc
    rcases List.mem_singleton.mp hc with rfl
    left
    exact List.mem_singleton.mpr rfl
  | c₁ :: c₂ :: rest => by
    intro c hc
    rw [unescapeNl] at hc
    by_cases hb : (c₁ = '\\' && c₂ = 'n') = true
    · rw [if_pos hb] at hc
      rcases List.mem_cons.mp hc with rfl | hc
      · right; rfl
      · rcases unescape_mem rest c hc with h | h
        · left; exact List.mem_cons_of_mem _ (List.mem_cons_of_mem _ h)
        · right; exact h
    · rw [if_neg hb] at hc
      rcases List.mem_cons.mp hc with rfl | hc
      · left; exact List.mem_cons_self _ _
      · rcases unescape_mem (c₂ :: rest) c hc with h | h
        · left; exact List.mem_cons_of_mem _ h
        · right; exact h

/-! ### Escape/unescape lemmas -/

theorem escape_append (a b : List Char) :
    escapeNl (a ++ b) = escapeNl a ++ escapeNl b := by
  simp [escapeNl]

theorem escape_boundary_free (v : List Char)
    (hv : ∀ c ∈ v, c ≠ '\n' → isLineBoundary c = false) :
    ∀ c ∈ escapeNl v, isLineBoundary c = false := by
  intro c hc
  simp only [escapeNl, List.mem_flatMap] at hc
  obtain ⟨c₀, hm, hc⟩ := hc
  by_cases h : c₀ = '\n'
  · rw [if_pos h] at hc
    simp only [List.mem_cons, List.not_mem_nil, or_false] at hc
    rcases hc with rfl | rfl <;> decide
  · rw [if_neg h] at hc
    simp only [List.mem_singleton] at hc
    exact hc ▸ hv c₀ hm (hc ▸ h)

theorem escape_ne_nil (v : List Char) (h : v ≠ []) : escapeNl v ≠ [] := by
  cases v with
  | nil => exact absurd rfl h
  | cons c t =>
    simp only [escapeNl, List.flatMap_cons]
    by_cases hc : c = '\n'
    · rw [if_pos hc]; simp
    · rw [if_neg hc]; simp

theorem escape_head? (v : List Char) (c : Char) (hh : v.head? = some c)
    (hne : c ≠ '\n') : (escapeNl v).head? = some c := by
  cases v with
  | nil => cases hh
  | cons c₀ t =>
    have : c₀ = c := by simpa using hh
    subst this
    simp only [escapeNl, List.flatMap_cons]
    rw [if_neg hne]
    rfl

theorem escape_getLast? : ∀ v : List Char, ∀ c : Char, v.getLast? = some c →
    c ≠ '\n' → (escapeNl v).getLast? = some c
  | [], c, hh, _ => by cases hh
  | [x], c, hh, hne => by
    have : x = c := by simpa using hh
    subst this
    simp only [escapeNl, List.flatMap_cons, List.flatMap_nil, List.append_nil]
    rw [if_neg hne]
    rfl
  | x :: y :: t, c, hh, hne => by
    have hh' : (y :: t).getLast? = some c := by
      rw [List.getLast?_cons_cons] at hh
      exact hh
    have ih := escape_getLast? (y :: t) c hh' hne
    have hsplit : escapeNl (x :: y :: t) =
        escapeNl [x] ++ escapeNl (y :: t) := by
      rw [← escape_append]
      rfl
    rw [hsplit, List.getLast?_append_of_ne_nil _ (escape_ne_nil (y :: t) (by simp))]
    exact ih

theorem unescape_cons_ne (c : Char) (l : List Char)
    (h : ¬(c = '\\' ∧ l.head? = some 'n')) :
    unescapeNl (c :: l) = c :: unescapeNl l := by
  cases l with
  | nil => rfl
  | cons x xs =>
    rw [unescapeNl]
    rw [if_neg]
    intro hb
    simp only [Bool.and_eq_true, decide_eq_true_eq] at hb
    exact h ⟨hb.1, by simp [hb.2]⟩

theorem hasBackslashN_tail (c : Char) (t : List Char)
    (h : hasBackslashN (c :: t) = false) : hasBackslashN t = false := by
  cases t with
  | nil => rfl
  | cons x xs =>
    rw [hasBackslashN] at h
    exact (Bool.or_eq_false_iff.mp h).2

/-- `value.replace("\\n", "\n")` inverts `str(v).replace("\n", "\\n")`
exactly when `v` contains no literal backslash-`n` pair. -/
theorem unescape_escape : ∀ v : List Char, hasBackslashN v = false →
    unescapeNl (escapeNl v) = v
  | [], _ => rfl
  | c :: t, hnb => by
    by_cases hc : c = '\n'
    · subst hc
      have hesc : escapeNl ('\n' :: t) = '\\' :: 'n' :: escapeNl t := by
        simp [escapeNl]
      rw [hesc, unescapeNl, if_pos (by decide),
        unescape_escape t (hasBackslashN_tail _ _ hnb)]
    · have hesc : escapeNl (c :: t) = c :: escapeNl t := by
        simp only [escapeNl, List.flatMap_cons]
        rw [if_neg hc]
        rfl
      cases t with
      | nil => rw [hesc]; rfl
      | cons t₀ t₁ =>
        have hnbt : hasBackslashN (t₀ :: t₁) = false := hasBackslashN_tail _ _ hnb
        have ih := unescape_escape (t₀ :: t₁) hnbt
        by_cases ht₀ : t₀ = '\n'
        · subst ht₀
          have hesc₂ : escapeNl ('\n' :: t₁) = '\\' :: 'n' :: escapeNl t₁ := by
            simp [escapeNl]
          have hcond : ¬(c = '\\' ∧ ('\\' :: 'n' :: escapeNl t₁).head? = some 'n') := by
            rintro ⟨-, h₂⟩
            simp at h₂
          rw [hesc, hesc₂, unescape_cons_ne c _ hcond, ← hesc₂, ih]
        · have hesc₂ : escapeNl (t₀ :: t₁) = t₀ :: escapeNl t₁ := by
            simp only [escapeNl, List.flatMap_cons]
            rw [if_neg ht₀]
            rfl
          have hcond : ¬(c = '\\' ∧ (t₀ :: escapeNl t₁).head? = some 'n') := by
            rintro ⟨h₁, h₂⟩
            have ht : t₀ = 'n' := by simpa using h₂
            rw [hasBackslashN, h₁, ht] at hnb
            simp at hnb
          rw [hesc, hesc₂, unescape_cons_ne c _ hcond, ← hesc₂, ih]

/-! ### Splitlines lemmas -/

theorem pySplitlinesGo_append (l : List Char)
    (hbf : ∀ c ∈ l, isLineBoundary c = false) :
    ∀ (s acc : List Char), pySplitlinesGo (l ++ s) acc =
      pySplitlinesGo s (l.reverse ++ acc) := by
  induction l with
  | nil => intro s acc; simp
  | cons c l' ih =>
    intro s acc
    have hc : isLineBoundary c = false := hbf c (List.mem_cons_self _ _)
    have hcr : (c = '\r') = False := by
      simp only [eq_iff_iff, iff_false]
      intro h
      rw [h] at hc
      exact absurd hc (by decide)
    rw [List.cons_append]
    cases hls : l' ++ s with
    | nil =>
      have hl' : l' = [] := (List.append_eq_nil.mp hls).1
      have hs : s = [] := (List.append_eq_nil.mp hls).2
      subst hl'
      subst hs
      simp [pySplitlinesGo, hc]
    | cons d rest =>
      have h1 : pySplitlinesGo (c :: d :: rest) acc =
          pySplitlinesGo (d :: rest) (c :: acc) := by
        rw [pySplitlinesGo]
        rw [if_neg (by simp [hcr])]
        rw [if_neg (by rw [hc]; exact Bool.false_ne_true)]
      rw [h1, ← hls, ih (fun c hc => hbf c (List.mem_cons_of_mem _ hc)) s (c :: acc)]
      simp

theorem pySplitlines_joinNl : ∀ ls : List (List Char), ls ≠ [] →
    (∀ l ∈ ls, ∀ c ∈ l, isLineBoundary c = false) →
    pySplitlines (joinNl ls ++ ['\n']) = ls
  | [], h, _ => absurd rfl h
  | [l], _, hbf => by
    unfold pySplitlines
    rw [show joinNl [l] = l from rfl]
    rw [pySplitlinesGo_append l (hbf l (List.mem_singleton.mpr rfl)) ['\n'] []]
    rw [pySplitlinesGo, if_pos (by decide)]
    simp [pySplitlinesGo]
  | l :: l₂ :: tl, _, hbf => by
    unfold pySplitlines
    have hjoin : joinNl (l :: l₂ :: tl) = l ++ '\n' :: joinNl (l₂ :: tl) := rfl
    rw [hjoin]
    rw [List.append_assoc, List.cons_append]
    rw [pySplitlinesGo_append l (hbf l (List.mem_cons_self _ _)) _ []]
    cases hx : joinNl (l₂ :: tl) ++ ['\n'] with
    | nil => exact absurd hx (by simp)
    | cons d rest =>
      have h1 : pySplitlinesGo ('\n' :: d :: rest) ((l.reverse) ++ []) =
          ((l.reverse) ++ []).reverse :: pySplitlinesGo (d :: rest) [] := by
        rw [pySplitlinesGo]
        rw [if_neg (by simp)]
        rw [if_pos (by decide)]
      rw [h1, ← hx]
      have ih := pySplitlines_joinNl (l₂ :: tl) (by simp)
        (fun l hl => hbf l (List.mem_cons_of_mem _ hl))
      unfold pySplitlines at ih
      rw [ih]
      simp

/-! ### Parsing a rendered `key=value` line -/

theorem takeWhile_keyline (w : List Char) :
    ∀ k : List Char, '=' ∉ k →
      (k ++ '=' :: w).takeWhile (fun c => c != '=') = k ∧
      (k ++ '=' :: w).dropWhile (fun c => c != '=') = '=' :: w
  | [], _ => by simp [List.takeWhile_cons, List.dropWhile_cons]
  | c :: k', h => by
    have hc : c ≠ '=' := fun hcontra => h (hcontra ▸ List.mem_cons_self _ _)
    have ih := takeWhile_keyline w k' (fun hm => h (List.mem_cons_of_mem _ hm))
    constructor
    · rw [List.cons_append, List.takeWhile_cons, if_pos (by simp [hc])]
      rw [ih.1]
    · rw [List.cons_append, List.dropWhile_cons, if_pos (by simp [hc])]
      rw [ih.2]

theorem dropWhile_append_stop (p : Char → Bool) (c : Char) (b : List Char)
    (hc : p c = false) :
    ∀ a : List Char, ∃ a', (a ++ c :: b).dropWhile p = a' ++ c :: b
  | [] => ⟨[], by simp [List.dropWhile_cons, hc]⟩
  | x :: a' => by
    cases hx : p x with
    | true =>
      obtain ⟨a'', ha⟩ := dropWhile_append_stop p c b hc a'
      exact ⟨a'', by rw [List.cons_append, List.dropWhile_cons, if_pos (by simp [hx])]; exact ha⟩
    | false =>
      exact ⟨x :: a', by rw [List.cons_append, List.dropWhile_cons, if_neg (by simp [hx])]⟩

/-- Stripping a rendered line keeps the key and the `'='` intact (only
trailing whitespace of the value part can go). -/
theorem pyStrip_keyline (k w : List Char) (hne : k ≠ [])
    (hh : ∀ c, k.head? = some c → pyIsSpace c = false) :
    ∃ w', pyStrip (k ++ '=' :: w) = k ++ '=' :: w' := by
  have hfront : (k ++ '=' :: w).dropWhile pyIsSpace = k ++ '=' :: w := by
    apply dropWhile_eq_self_of_head
    intro c hc
    rw [List.head?_append_of_ne_nil _ hne] at hc
    exact hh c hc
  have hrev : (k ++ '=' :: w).reverse = w.reverse ++ '=' :: k.reverse := by
    rw [List.reverse_append, List.reverse_cons, List.append_assoc]
    simp
  obtain ⟨a', ha⟩ := dropWhile_append_stop pyIsSpace '=' k.reverse (by decide) w.reverse
  refine ⟨a'.reverse, ?_⟩
  unfold pyStrip
  rw [hfront, hrev, ha, List.reverse_append, List.reverse_cons, List.reverse_reverse]
  simp

theorem exportSpace_not_prefix_keyline (k w : List Char)
    (hexp : exportSpace.isPrefixOf k = false) :
    exportSpace.isPrefixOf (k ++ '=' :: w) = false := by
  cases hpre : exportSpace.isPrefixOf (k ++ '=' :: w) with
  | false => rfl
  | true =>
    exfalso
    have hpre' : List.IsPrefix exportSpace (k ++ '=' :: w) :=
      List.isPrefixOf_iff_prefix.mp hpre
    by_cases hlen : 7 ≤ k.length
    · have hkpre : List.IsPrefix k (k ++ '=' :: w) := List.prefix_append k _
      have : List.IsPrefix exportSpace k :=
        List.prefix_of_prefix_length_le hpre' hkpre (by simpa using hlen)
      rw [List.isPrefixOf_iff_prefix.mpr this] at hexp
      cases hexp
    · obtain ⟨t, ht⟩ := hpre'
      have htake : (k ++ '=' :: w).take 7 = exportSpace := by
        rw [← ht, List.take_append_eq_append_take]
        rw [show (exportSpace.length = 7) from rfl, List.take_of_length_le (by rw [show (exportSpace.length = 7) from rfl])]
        simp
      rw [List.take_append_eq_append_take, List.take_of_length_le (by omega)] at htake
      have h7k : 7 - k.length = (6 - k.length) + 1 := by omega
      rw [h7k] at htake
      have hmem : '=' ∈ exportSpace := by
        rw [← htake]
        exact List.mem_append_right _ (List.mem_cons_self _ _)
      exact absurd hmem (by decide)

theorem stripQuotes_id (w : List Char) (h : quoteWrapped w = false) :
    stripEnvQuotes w = w := by
  cases w with
  | nil => rfl
  | cons c rest =>
    rw [stripEnvQuotes]
    rw [if_neg]
    intro hb
    simp only [Bool.or_eq_true, Bool.and_eq_true, decide_eq_true_eq] at hb
    have h' : (c = '"' → ¬(c :: rest).getLast? = some '"') ∧
        (c = squote → ¬(c :: rest).getLast? = some squote) := by
      simpa [quoteWrapped] using h
    rcases hb with ⟨h₁, h₂⟩ | ⟨h₁, h₂⟩
    · exact h'.1 h₁ h₂
    · exact h'.2 h₁ h₂

theorem pyStrip_getLast_not_space (l : List Char) (hs : pyStrip l = l) (c : Char)
    (hc : l.getLast? = some c) : pyIsSpace c = false := by
  by_contra hsp
  rw [Bool.not_eq_false] at hsp
  have hlne : l ≠ [] := by
    intro h
    rw [h] at hc
    cases hc
  have hd : l.dropWhile pyIsSpace ≠ [] := by
    intro h
    have : pyStrip l = [] := by
      unfold pyStrip
      rw [h]
      rfl
    rw [hs] at this
    exact hlne this
  obtain ⟨t, ht⟩ := List.dropWhile_suffix (l := l) (p := pyIsSpace)
  have hlast : (l.dropWhile pyIsSpace).getLast? = some c := by
    rw [← hc]
    conv_rhs => rw [← ht]
    rw [List.getLast?_append_of_ne_nil _ hd]
  have hhead : (l.dropWhile pyIsSpace).reverse.head? = some c := by
    rw [List.head?_reverse, hlast]
  have hdrop2 : ((l.dropWhile pyIsSpace).reverse.dropWhile pyIsSpace).length ≤
      (l.dropWhile pyIsSpace).reverse.length - 1 := by
    cases hrev : (l.dropWhile pyIsSpace).reverse with
    | nil => simp [hrev]
    | cons x xs =>
      have hx : x = c := by
        rw [hrev] at hhead
        simpa using hhead
      rw [List.dropWhile_cons, if_pos (hx ▸ hsp)]
      calc (xs.dropWhile pyIsSpace).length ≤ xs.length :=
            (List.dropWhile_sublist _).length_le
        _ = (x :: xs).length - 1 := by simp
  have hlen : (pyStrip l).length < l.length := by
    unfold pyStrip
    rw [List.length_reverse]
    have h₁ : (l.dropWhile pyIsSpace).reverse.length ≤ l.length := by
      rw [List.length_reverse]
      exact (List.dropWhile_sublist _).length_le
    have h₂ : 0 < (l.dropWhile pyIsSpace).reverse.length := by
      rw [List.length_reverse]
      exact List.length_pos.mpr hd
    omega
  rw [hs] at hlen
  omega

theorem exportSpace_not_prefix_of_noSpace (k : List Char)
    (hnosp : ∀ c ∈ k, pyIsSpace c = false) : exportSpace.isPrefixOf k = false := by
  cases h : exportSpace.isPrefixOf k with
  | false => rfl
  | true =>
    exfalso
    have hpre := List.isPrefixOf_iff_prefix.mp h
    have hmem : ' ' ∈ k := hpre.subset (by decide)
    have := hnosp ' ' hmem
    exact absurd this (by decide)

theorem escape_head?_eq (v : List Char) (hstrip : pyStrip v = v) :
    (escapeNl v).head? = v.head? := by
  cases v with
  | nil => rfl
  | cons c t =>
    have hnsp : pyIsSpace c = false := pyStrip_head_not_space _ hstrip c rfl
    have hcn : c ≠ '\n' := by
      intro h
      rw [h] at hnsp
      exact absurd hnsp (by decide)
    rw [escape_head? (c :: t) c rfl hcn]
    rfl

theorem escape_getLast?_eq (v : List Char) (hstrip : pyStrip v = v) :
    (escapeNl v).getLast? = v.getLast? := by
  cases hl : v.getLast? with
  | none =>
    rw [List.getLast?_eq_none_iff.mp hl]
    rfl
  | some c =>
    have hnsp := pyStrip_getLast_not_space v hstrip c hl
    have hcn : c ≠ '\n' := by
      intro h
      rw [h] at hnsp
      exact absurd hnsp (by decide)
    rw [escape_getLast? v c hl hcn]

theorem escape_strip_stable (v : List Char) (hstrip : pyStrip v = v) :
    pyStrip (escapeNl v) = escapeNl v := by
  apply pyStrip_eq_self
  · intro c hc
    rw [escape_head?_eq v hstrip] at hc
    exact pyStrip_head_not_space v hstrip c hc
  · intro c hc
    rw [escape_getLast?_eq v hstrip] at hc
    exact pyStrip_getLast_not_space v hstrip c hc

theorem escape_quoteWrapped (v : List Char) (hstrip : pyStrip v = v) :
    quoteWrapped (escapeNl v) = quoteWrapped v := by
  unfold quoteWrapped
  rw [escape_head?_eq v hstrip, escape_getLast?_eq v hstrip]

/-- Parsing a rendered line of a claim-C10-conforming entry returns the
entry exactly. -/
theorem parse_render_target (k v : List Char) (hk : envKeyOk k) (hv : envValueOk v) :
    parseEnvLine (renderEnvLine (k, v)) = some (k, v) := by
  obtain ⟨hkne, hnosp, hneq, hhash⟩ := hk
  obtain ⟨hstrip, hquote, hbsn, _⟩ := hv
  have hline : renderEnvLine (k, v) = k ++ '=' :: escapeNl v := rfl
  have hlast : ∀ c, (k ++ '=' :: escapeNl v).getLast? = some c → pyIsSpace c = false := by
    intro c hc
    rw [List.getLast?_append_of_ne_nil _ (by simp)] at hc
    cases hev : escapeNl v with
    | nil =>
      rw [hev] at hc
      have : c = '=' := by simpa [eq_comm] using hc
      rw [this]
      decide
    | cons e es =>
      rw [hev, List.getLast?_cons_cons, ← hev, escape_getLast?_eq v hstrip] at hc
      exact pyStrip_getLast_not_space v hstrip c hc
  have hlstrip : pyStrip (k ++ '=' :: escapeNl v) = k ++ '=' :: escapeNl v := by
    apply pyStrip_eq_self
    · intro c hc
      rw [List.head?_append_of_ne_nil _ hkne] at hc
      exact hnosp c (List.mem_of_mem_head? hc)
    · exact hlast
  have hempty : (k ++ '=' :: escapeNl v).isEmpty = false := by
    cases k <;> simp
  have hhead : (k ++ '=' :: escapeNl v).head? = k.head? :=
    List.head?_append_of_ne_nil _ hkne
  have hexpk : exportSpace.isPrefixOf k = false := exportSpace_not_prefix_of_noSpace k hnosp
  have hexp : exportSpace.isPrefixOf (k ++ '=' :: escapeNl v) = false :=
    exportSpace_not_prefix_keyline k (escapeNl v) hexpk
  have hcont : (k ++ '=' :: escapeNl v).contains '=' = true := by simp
  have hsplit := takeWhile_keyline (escapeNl v) k hneq
  have hkstrip : pyStrip k = k := noSpace_pyStrip k hnosp
  have hkempty : k.isEmpty = false := by simpa [List.isEmpty_iff] using hkne
  rw [hline, parseEnvLine]
  rw [hlstrip, hempty]
  rw [if_neg Bool.false_ne_true]
  rw [hhead, if_neg hhash]
  rw [hexp]
  rw [if_neg Bool.false_ne_true]
  have hsq : stripEnvQuotes (escapeNl v) = escapeNl v :=
    stripQuotes_id _ (by rw [escape_quoteWrapped v hstrip]; exact hquote)
  unfold splitFirstEq
  simp only [hcont, hsplit.1, hsplit.2, hkstrip, hkempty, reduceIte, List.tail_cons,
    escape_strip_stable v hstrip, hsq, unescape_escape v hbsn]
  simp only [Bool.false_eq_true, if_false]

/-! ### Sorting and membership lemmas for the written entry list -/

theorem envInsert_perm (le : α → α → Bool) (x : α) :
    ∀ l : List α, List.Perm (envInsert le x l) (x :: l)
  | [] => List.Perm.refl _
  | y :: ys => by
    rw [envInsert]
    by_cases h : le x y = true
    · rw [if_pos h]
    · rw [if_neg h]
      exact (List.Perm.cons y (envInsert_perm le x ys)).trans (List.Perm.swap x y ys)

theorem envSort_perm (le : α → α → Bool) :
    ∀ l : List α, List.Perm (envSort le l) l
  | [] => List.Perm.refl _
  | x :: xs => by
    rw [envSort]
    exact (envInsert_perm le x (envSort le xs)).trans (List.Perm.cons x (envSort_perm le xs))

/-- Parsing the rendered line of any well-formed entry yields a pair
carrying the entry's own key. -/
theorem parse_render_other (e : List Char × List Char) (hwf : wfWriteEntry e) :
    ∃ w, parseEnvLine (renderEnvLine e) = some (e.1, w) := by
  obtain ⟨k, v⟩ := e
  obtain ⟨hkne, hkstrip, hneq, hhash, hexpk, -, -⟩ := hwf
  have hline : renderEnvLine (k, v) = k ++ '=' :: escapeNl v := rfl
  obtain ⟨w', hps⟩ := pyStrip_keyline k (escapeNl v) hkne
    (fun c hc => pyStrip_head_not_space k hkstrip c hc)
  have hempty : (k ++ '=' :: w').isEmpty = false := by cases k <;> simp
  have hhead : (k ++ '=' :: w').head? = k.head? := List.head?_append_of_ne_nil _ hkne
  have hexp : exportSpace.isPrefixOf (k ++ '=' :: w') = false :=
    exportSpace_not_prefix_keyline k w' hexpk
  have hcont : (k ++ '=' :: w').contains '=' = true := by simp
  have hsplit := takeWhile_keyline w' k hneq
  have hkempty : k.isEmpty = false := by simpa [List.isEmpty_iff] using hkne
  refine ⟨unescapeNl (stripEnvQuotes (pyStrip w')), ?_⟩
  rw [hline, parseEnvLine]
  rw [hps, hempty]
  rw [if_neg Bool.false_ne_true]
  rw [hhead, if_neg hhash]
  rw [hexp]
  rw [if_neg Bool.false_ne_true]
  unfold splitFirstEq
  simp only [hcont, hsplit.1, hsplit.2, hkstrip, hkempty, reduceIte, List.tail_cons]
  simp only [Bool.false_eq_true, if_false]

theorem dictGet_some_of_contains [BEq α] (m : List (α × β)) (k : α)
    (h : dictContains m k = true) : ∃ v, dictGet m k = some v := by
  induction m with
  | nil => cases h
  | cons p tl ih =>
    cases hp : p.1 == k with
    | true => exact ⟨p.2, by rw [dictGet_cons, hp, if_pos rfl]⟩
    | false =>
      rw [dictContains_cons, hp, Bool.false_or] at h
      obtain ⟨v, hv⟩ := ih h
      exact ⟨v, by rw [dictGet_cons, hp, if_neg Bool.false_ne_true]; exact hv⟩

theorem dictGet_mem_pair [BEq α] [LawfulBEq α] (m : List (α × β)) (k : α) (v : β)
    (h : dictGet m k = some v) : (k, v) ∈ m := by
  induction m with
  | nil => cases h
  | cons p tl ih =>
    obtain ⟨a, b⟩ := p
    rw [dictGet_cons] at h
    dsimp only at h
    cases hp : a == k with
    | true =>
      rw [hp, if_pos rfl] at h
      have hk : a = k := eq_of_beq hp
      have hv : b = v := by simpa using h
      subst hk
      subst hv
      exact List.mem_cons_self _ _
    | false =>
      rw [hp, if_neg Bool.false_ne_true] at h
      exact List.mem_cons_of_mem _ (ih h)

/-- In a duplicate-free association list the value of a key is unique. -/
theorem keysNodup_value_unique (m : List (α × β)) (hnd : keysNodup m)
    (k : α) (v : β) (hm : (k, v) ∈ m) :
    ∀ e ∈ m, e.1 = k → e.2 = v := by
  induction m with
  | nil => intro e he; cases he
  | cons p tl ih =>
    simp only [keysNodup, List.map_cons, List.nodup_cons] at hnd
    intro e he hek
    rcases List.mem_cons.mp hm with hpkv | hmtl
    · rcases List.mem_cons.mp he with rfl | hetl
      · rw [← hpkv]
      · exfalso
        apply hnd.1
        rw [← hpkv]
        exact hek ▸ List.mem_map.mpr ⟨e, hetl, rfl⟩
    · rcases List.mem_cons.mp he with rfl | hetl
      · exfalso
        apply hnd.1
        rw [hek]
        exact List.mem_map.mpr ⟨(k, v), hmtl, rfl⟩
      · exact ih hnd.2 hmtl e hetl hek

theorem mem_dictInsert [BEq α] (m : List (α × β)) (k : α) (v : β)
    (e : α × β) (he : e ∈ dictInsert m k v) : e ∈ m ∨ e = (k, v) := by
  unfold dictInsert at he
  split at he
  · rw [List.mem_map] at he
    obtain ⟨p, hp, hpe⟩ := he
    by_cases hpk : (p.1 == k) = true
    · rw [if_pos hpk] at hpe
      right
      exact hpe.symm
    · rw [if_neg hpk] at hpe
      left
      exact hpe ▸ hp
  · rcases List.mem_append.mp he with h | h
    · left; exact h
    · right; simpa using h

theorem mem_dictUpdate [BEq α] (new : List (α × β)) :
    ∀ (m : List (α × β)) (e : α × β), e ∈ dictUpdate m new → e ∈ m ∨ e ∈ new := by
  induction new with
  | nil => intro m e he; left; exact he
  | cons p tl ih =>
    intro m e he
    have he' : e ∈ dictUpdate (dictInsert m p.1 p.2) tl := he
    rcases ih (dictInsert m p.1 p.2) e he' with h | h
    · rcases mem_dictInsert m p.1 p.2 e h with h' | h'
      · left; exact h'
      · right
        rw [h']
        exact List.mem_cons_self _ _
    · right
      exact List.mem_cons_of_mem _ h

theorem keysNodup_dictUpdate [BEq α] [LawfulBEq α] (new : List (α × β)) :
    ∀ m : List (α × β), keysNodup m → keysNodup (dictUpdate m new) := by
  induction new with
  | nil => intro m h; exact h
  | cons p tl ih =>
    intro m h
    exact ih (dictInsert m p.1 p.2) (keysNodup_dictInsert m p.1 p.2 h)

/-! ### Read-side lemmas: parsed values contain no line boundary but `'\n'` -/

theorem pySplitlinesGo_pieces : ∀ (s acc : List Char),
    (∀ c ∈ acc, isLineBoundary c = false) →
    ∀ l ∈ pySplitlinesGo s acc, ∀ c ∈ l, isLineBoundary c = false
  | [], acc => by
    intro hacc l hl c hc
    rw [pySplitlinesGo] at hl
    split at hl
    · cases hl
    · rw [List.mem_singleton] at hl
      subst hl
      exact hacc c (List.mem_reverse.mp hc)
  | [c₀], acc => by
    intro hacc l hl c hc
    by_cases hb : isLineBoundary c₀ = true
    · rw [pySplitlinesGo, if_pos hb] at hl
      rcases List.mem_cons.mp hl with rfl | hl'
      · exact hacc c (List.mem_reverse.mp hc)
      · exact pySplitlinesGo_pieces [] [] (by intro x hx; cases hx) l hl' c hc
    · rw [pySplitlinesGo, if_neg hb] at hl
      refine pySplitlinesGo_pieces [] (c₀ :: acc) ?_ l hl c hc
      intro x hx
      rcases List.mem_cons.mp hx with rfl | hx'
      · simpa using hb
      · exact hacc x hx'
  | c₁ :: c₂ :: rest, acc => by
    intro hacc l hl c hc
    by_cases hb1 : (c₁ = '\r' && c₂ = '\n') = true
    · rw [pySplitlinesGo, if_pos hb1] at hl
      rcases List.mem_cons.mp hl with rfl | hl'
      · exact hacc c (List.mem_reverse.mp hc)
      · exact pySplitlinesGo_pieces rest [] (by intro x hx; cases hx) l hl' c hc
    · by_cases hb2 : isLineBoundary c₁ = true
      · rw [pySplitlinesGo, if_neg hb1, if_pos hb2] at hl
        rcases List.mem_cons.mp hl with rfl | hl'
        · exact hacc c (List.mem_reverse.mp hc)
        · exact pySplitlinesGo_pieces (c₂ :: rest) [] (by intro x hx; cases hx) l hl' c hc
      · rw [pySplitlinesGo, if_neg hb1, if_neg hb2] at hl
        refine pySplitlinesGo_pieces (c₂ :: rest) (c₁ :: acc) ?_ l hl c hc
        intro x hx
        rcases List.mem_cons.mp hx with rfl | hx'
        · simpa using hb2
        · exact hacc x hx'

theorem pySplitlines_pieces (s : List Char) :
    ∀ l ∈ pySplitlines s, ∀ c ∈ l, isLineBoundary c = false :=
  pySplitlinesGo_pieces s [] (by intro x hx; cases hx)

theorem export_strip_subset (l : List Char) :
    ∀ c ∈ (if exportSpace.isPrefixOf l = true then pyStrip (l.drop 7) else l), c ∈ l := by
  intro c hc
  split at hc
  · exact (List.drop_sublist 7 l).subset (pyStrip_subset _ c hc)
  · exact hc

theorem splitFirstEq_snd_subset (l : List Char) : ∀ c ∈ (splitFirstEq l).2, c ∈ l := by
  intro c hc
  exact (List.dropWhile_sublist _).subset ((List.tail_sublist _).subset hc)

/-- Every character of a value returned by the env-line parser is either a
character of the raw line or a newline produced by the unescape step. -/
theorem parseEnvLine_value_subset (raw k v : List Char)
    (h : parseEnvLine raw = some (k, v)) :
    ∀ c ∈ v, c ∈ raw ∨ c = '\n' := by
  simp only [parseEnvLine] at h
  split at h
  · cases h
  · split at h
    · cases h
    · generalize hX : (if exportSpace.isPrefixOf (pyStrip raw) = true then
          pyStrip ((pyStrip raw).drop 7) else pyStrip raw) = X at h
      split at h
      · split at h
        · cases h
        · rw [Option.some.injEq, Prod.mk.injEq] at h
          obtain ⟨-, hv⟩ := h
          intro c hc
          rw [← hv] at hc
          rcases unescape_mem _ c hc with hmem | rfl
          · left
            have h1 := stripQuotes_subset _ c hmem
            have h2 := pyStrip_subset _ c h1
            have h3 := splitFirstEq_snd_subset X c h2
            rw [← hX] at h3
            have h4 := export_strip_subset (pyStrip raw) c h3
            exact pyStrip_subset raw c h4
          · right; rfl
      · cases h

/-- Membership in a `dictInsert`-fold over parsed lines decomposes into the
initial map and the parses. -/
theorem mem_parseFold (f : List Char → Option (List Char × List Char)) :
    ∀ (lines : List (List Char)) (m : List (List Char × List Char))
      (e : List Char × List Char),
      e ∈ lines.foldl (fun acc raw =>
        match f raw with
        | some kv => dictInsert acc kv.1 kv.2
        | none => acc) m →
      e ∈ m ∨ ∃ raw ∈ lines, f raw = some e := by
  intro lines
  induction lines with
  | nil => intro m e he; left; exact he
  | cons raw tl ih =>
    intro m e he
    rw [List.foldl_cons] at he
    cases hp : f raw with
    | none =>
      rw [hp] at he
      rcases ih m e he with h | ⟨r, hr, hfr⟩
      · left; exact h
      · right; exact ⟨r, List.mem_cons_of_mem _ hr, hfr⟩
    | some kv =>
      rw [hp] at he
      rcases ih (dictInsert m kv.1 kv.2) e he with h | ⟨r, hr, hfr⟩
      · rcases mem_dictInsert m kv.1 kv.2 e h with h' | h'
        · left; exact h'
        · right
          refine ⟨raw, List.mem_cons_self _ _, ?_⟩
          rw [hp, h']
      · right; exact ⟨r, List.mem_cons_of_mem _ hr, hfr⟩

/-- Every value stored by `read_runtime_env` is free of line boundaries
other than `'\n'`. -/
theorem readRuntimeEnv_value_bf (file : Option (List Char)) (k v : List Char)
    (h : dictGet (readRuntimeEnv file) k = some v) :
    ∀ c ∈ v, c ≠ '\n' → isLineBoundary c = false := by
  cases file with
  | none => cases h
  | some content =>
    have hmem : (k, v) ∈ readRuntimeEnvContent content := dictGet_mem_pair _ _ _ h
    rcases mem_parseFold parseEnvLine (pySplitlines content) [] (k, v) hmem with
      h0 | ⟨raw, hraw, hp⟩
    · cases h0
    · intro c hc hcn
      rcases parseEnvLine_value_subset raw k v hp c hc with hcr | hcn2
      · exact pySplitlines_pieces content raw hraw c hcr
      · exact absurd hcn2 hcn

/-! ### The dictionary `write_runtime_env` renders -/

theorem mergedWriteValues_get_of_contains (values : List (List Char × List Char))
    (oldFile : Option (List Char)) (k : List Char)
    (hk : dictContains values k = true) :
    dictGet (mergedWriteValues values oldFile) k = dictGet values k := by
  simp only [mergedWriteValues]
  cases hb : dictContains values bridgeSecretKey with
  | true => simp
  | false =>
    simp only [Bool.false_eq_true, if_false]
    cases hs : (pyStrip ((dictGet (readRuntimeEnv oldFile) bridgeSecretKey).getD [])).isEmpty with
    | true => simp
    | false =>
      simp only [Bool.false_eq_true, if_false]
      apply dictGet_dictInsert_ne
      intro hbk
      rw [hbk] at hb
      rw [hb] at hk
      cases hk

theorem mem_mergedWriteValues (values : List (List Char × List Char))
    (oldFile : Option (List Char)) (e : List Char × List Char)
    (he : e ∈ mergedWriteValues values oldFile) :
    e ∈ values ∨
      e = (bridgeSecretKey,
        pyStrip ((dictGet (readRuntimeEnv oldFile) bridgeSecretKey).getD [])) := by
  simp only [mergedWriteValues] at he
  split at he
  · left; exact he
  · split at he
    · left; exact he
    · exact mem_dictInsert _ _ _ e he

theorem keysNodup_mergedWriteValues (values : List (List Char × List Char))
    (oldFile : Option (List Char)) (hnd : keysNodup values) :
    keysNodup (mergedWriteValues values oldFile) := by
  simp only [mergedWriteValues]
  split
  · exact hnd
  · split
    · exact hnd
    · exact keysNodup_dictInsert _ _ _ hnd

theorem writtenRuntimeEnvMap_get_of_contains
    (values : List (List Char × List Char)) (oldFile : Option (List Char))
    (templateRender : List Char → List Char) (bridgePort : List Char)
    (hnd : keysNodup values) (k : List Char) (hk : dictContains values k = true)
    (v : List Char) (hv : dictGet values k = some v) :
    dictGet (writtenRuntimeEnvMap values oldFile templateRender bridgePort) k = some v := by
  simp only [writtenRuntimeEnvMap]
  apply dictGet_dictUpdate_of_some
  · exact keysNodup_mergedWriteValues values oldFile hnd
  · rw [mergedWriteValues_get_of_contains values oldFile k hk]
    exact hv

theorem keysNodup_parseFold (f : List Char → Option (List Char × List Char)) :
    ∀ (lines : List (List Char)) (m : List (List Char × List Char)), keysNodup m →
      keysNodup (lines.foldl (fun acc raw =>
        match f raw with
        | some kv => dictInsert acc kv.1 kv.2
        | none => acc) m) := by
  intro lines
  induction lines with
  | nil => intro m h; exact h
  | cons raw tl ih =>
    intro m h
    rw [List.foldl_cons]
    cases hp : f raw with
    | none => exact ih m h
    | some kv => exact ih (dictInsert m kv.1 kv.2) (keysNodup_dictInsert _ _ _ h)

theorem keysNodup_hardcoded (bridgePort : List Char) :
    keysNodup (hardcodedRuntimeDefaults bridgePort) := by
  have hkeys : (hardcodedRuntimeDefaults bridgePort).map (fun p => p.1) =
      ["NEXUS_CLI_ENABLED".toList, "NEXUS_CONFIG_DIR".toList, "NEXUS_DATA_DIR".toList,
       "NEXUS_PROMPTS_DIR".toList, "NEXUS_SKILLS_DIR".toList, "NEXUS_BRIDGE_WS_URL".toList,
       "NEXUS_BRIDGE_BIND_HOST".toList, "BRIDGE_HOST".toList, "BRIDGE_PORT".toList,
       "BRIDGE_QR_MODE".toList, "BRIDGE_EXIT_ON_CONNECT".toList,
       "BRIDGE_SESSION_DIR".toList] := rfl
  unfold keysNodup
  rw [hkeys]
  decide

theorem keysNodup_defaultRuntimeEnv (tr bp : List Char) :
    keysNodup (defaultRuntimeEnv tr bp) :=
  keysNodup_parseFold parseTemplateLine (pySplitlines tr)
    (hardcodedRuntimeDefaults bp) (keysNodup_hardcoded bp)

/-! ### Well-formedness of every rendered entry -/

theorem wf_of_env_ok (k v : List Char) (hk : envKeyOk k) (hv : envValueOk v) :
    wfWriteEntry (k, v) := by
  obtain ⟨hkne, hnosp, hneq, hhash⟩ := hk
  obtain ⟨-, -, -, hvbf⟩ := hv
  refine ⟨hkne, noSpace_pyStrip k hnosp, hneq, hhash,
    exportSpace_not_prefix_of_noSpace k hnosp, ?_, hvbf⟩
  intro c hc
  cases hb : isLineBoundary c with
  | false => rfl
  | true =>
    have hsp := isLineBoundary_isSpace c hb
    rw [hnosp c hc] at hsp
    cases hsp

theorem wf_hardcoded (bridgePort : List Char)
    (hport : ∀ c ∈ bridgePort, isLineBoundary c = false) :
    ∀ e ∈ hardcodedRuntimeDefaults bridgePort, wfWriteEntry e := by
  intro e he
  simp only [hardcodedRuntimeDefaults, List.mem_cons, List.not_mem_nil, or_false] at he
  rcases he with rfl|rfl|rfl|rfl|rfl|rfl|rfl|rfl|rfl|rfl|rfl|rfl
  all_goals refine ⟨?_, ?_, ?_, ?_, ?_, ?_, ?_⟩
  all_goals dsimp only
  all_goals
    first
      | decide
      | exact fun c hc _ => hport c hc

theorem wf_writtenRuntimeEnvMap
    (values : List (List Char × List Char)) (oldFile : Option (List Char))
    (templateRender : List Char → List Char) (bridgePort : List Char)
    (hkeys : ∀ e ∈ values, envKeyOk e.1)
    (hvals : ∀ e ∈ values, envValueOk e.2)
    (hport : ∀ c ∈ bridgePort, isLineBoundary c = false)
    (htmpl : ∀ x raw e, raw ∈ pySplitlines (templateRender x) →
      parseTemplateLine raw = some e → wfWriteEntry e) :
    ∀ e ∈ writtenRuntimeEnvMap values oldFile templateRender bridgePort, wfWriteEntry e := by
  intro e he
  simp only [writtenRuntimeEnvMap] at he
  rcases mem_dictUpdate _ _ e he with hd | hm
  · rcases mem_parseFold parseTemplateLine _ _ e hd with hh | ⟨raw, hraw, hpr⟩
    · exact wf_hardcoded bridgePort hport e hh
    · exact htmpl _ raw e hraw hpr
  · rcases mem_mergedWriteValues values oldFile e hm with hv | rfl
    · exact wf_of_env_ok e.1 e.2 (hkeys e hv) (hvals e hv)
    · refine ⟨(by decide : bridgeSecretKey ≠ []),
        (by decide : pyStrip bridgeSecretKey = bridgeSecretKey),
        (by decide : '=' ∉ bridgeSecretKey),
        (by decide : bridgeSecretKey.head? ≠ some '#'),
        (by decide : exportSpace.isPrefixOf bridgeSecretKey = false),
        (by decide : ∀ c ∈ bridgeSecretKey, isLineBoundary c = false), ?_⟩
      intro c hc hcn
      have hc' := pyStrip_subset _ c hc
      cases hget : dictGet (readRuntimeEnv oldFile) bridgeSecretKey with
      | none =>
        rw [hget] at hc'
        cases hc'
      | some w =>
        rw [hget] at hc'
        exact readRuntimeEnv_value_bf oldFile bridgeSecretKey w hget c hc' hcn

theorem render_boundary_free (e : List Char × List Char) (hwf : wfWriteEntry e) :
    ∀ c ∈ renderEnvLine e, isLineBoundary c = false := by
  obtain ⟨k, v⟩ := e
  obtain ⟨-, -, -, -, -, hkbf, hvbf⟩ := hwf
  intro c hc
  rw [renderEnvLine] at hc
  rcases List.mem_append.mp hc with hck | hc2
  · exact hkbf c hck
  · rcases List.mem_cons.mp hc2 with rfl | hce
    · decide
    · exact escape_boundary_free v hvbf c hce

/-! ### The read fold recovers the written entries -/

theorem readFold_keep (k v : List Char) :
    ∀ (lines : List (List Char)) (acc : List (List Char × List Char)),
      (∀ raw ∈ lines, ∀ k' w, parseEnvLine raw = some (k', w) → k' = k → w = v) →
      dictGet acc k = some v →
      dictGet (lines.foldl (fun acc raw =>
        match parseEnvLine raw with
        | some kv => dictInsert acc kv.1 kv.2
        | none => acc) acc) k = some v := by
  intro lines
  induction lines with
  | nil => intro acc _ hacc; exact hacc
  | cons raw tl ih =>
    intro acc hlines hacc
    rw [List.foldl_cons]
    cases hp : parseEnvLine raw with
    | none => exact ih acc (fun r hr => hlines r (List.mem_cons_of_mem _ hr)) hacc
    | some kv =>
      apply ih (dictInsert acc kv.1 kv.2) (fun r hr => hlines r (List.mem_cons_of_mem _ hr))
      by_cases hkk : kv.1 = k
      · have hv2 : kv.2 = v := hlines raw (List.mem_cons_self _ _) kv.1 kv.2 hp hkk
        rw [hkk, hv2]
        exact dictGet_dictInsert_self acc k v
      · rw [dictGet_dictInsert_ne acc kv.1 k kv.2 hkk]
        exact hacc

theorem readFold_start (k v : List Char) :
    ∀ (lines : List (List Char)) (acc : List (List Char × List Char)),
      (∀ raw ∈ lines, ∀ k' w, parseEnvLine raw = some (k', w) → k' = k → w = v) →
      (∃ raw ∈ lines, parseEnvLine raw = some (k, v)) →
      dictGet (lines.foldl (fun acc raw =>
        match parseEnvLine raw with
        | some kv => dictInsert acc kv.1 kv.2
        | none => acc) acc) k = some v := by
  intro lines
  induction lines with
  | nil =>
    rintro acc - ⟨raw, hraw, -⟩
    cases hraw
  | cons raw tl ih =>
    intro acc hlines hex
    rw [List.foldl_cons]
    cases hp : parseEnvLine raw with
    | none =>
      apply ih acc (fun r hr => hlines r (List.mem_cons_of_mem _ hr))
      obtain ⟨r, hr, hpr⟩ := hex
      rcases List.mem_cons.mp hr with rfl | hr'
      · rw [hp] at hpr
        cases hpr
      · exact ⟨r, hr', hpr⟩
    | some kv =>
      by_cases hkk : kv.1 = k
      · have hv2 : kv.2 = v := hlines raw (List.mem_cons_self _ _) kv.1 kv.2 hp hkk
        apply readFold_keep k v tl (dictInsert acc kv.1 kv.2)
          (fun r hr => hlines r (List.mem_cons_of_mem _ hr))
        rw [hkk, hv2]
        exact dictGet_dictInsert_self acc k v
      · apply ih (dictInsert acc kv.1 kv.2) (fun r hr => hlines r (List.mem_cons_of_mem _ hr))
        obtain ⟨r, hr, hpr⟩ := hex
        rcases List.mem_cons.mp hr with rfl | hr'
        · rw [hp] at hpr
          have hkv : kv = (k, v) := Option.some.inj hpr
          exact absurd (by rw [hkv]) hkk
        · exact ⟨r, hr', hpr⟩

/-- **C10.** Amended round trip of the runtime env file: for every
duplicate-free env map whose keys are non-empty, contain no `'='` and no
whitespace, and do not start with `'#'` (hence not with `"export "`), and
whose values carry no leading or trailing whitespace, are not
quote-wrapped, contain no literal backslash-`n` pair and no line-break
character other than `'\n'`, reading the file written by
`write_runtime_env` returns every key of `values` with its original value
(embedded `'\n'` characters survive via the `"\\n"` escape).  The rendered
env template and the configured bridge port are assumed to contribute only
well-formed lines. -/
theorem runtimeEnv_write_read_roundtrip
    (values : List (List Char × List Char)) (oldFile : Option (List Char))
    (templateRender : List Char → List Char) (bridgePort : List Char)
    (hnd : keysNodup values)
    (hkeys : ∀ e ∈ values, envKeyOk e.1)
    (hvals : ∀ e ∈ values, envValueOk e.2)
    (hport : ∀ c ∈ bridgePort, isLineBoundary c = false)
    (htmpl : ∀ x raw e, raw ∈ pySplitlines (templateRender x) →
      parseTemplateLine raw = some e → wfWriteEntry e)
    (k : List Char) (hk : dictContains values k = true) :
    dictGet (readRuntimeEnv
        (some (writeRuntimeEnv values oldFile templateRender bridgePort))) k
      = dictGet values k := by
  obtain ⟨v, hv⟩ := dictGet_some_of_contains values k hk
  have hndM : keysNodup (writtenRuntimeEnvMap values oldFile templateRender bridgePort) := by
    simp only [writtenRuntimeEnvMap]
    exact keysNodup_dictUpdate _ _ (keysNodup_defaultRuntimeEnv _ _)
  have hwfM := wf_writtenRuntimeEnvMap values oldFile templateRender bridgePort
    hkeys hvals hport htmpl
  have hMk : dictGet (writtenRuntimeEnvMap values oldFile templateRender bridgePort) k
      = some v :=
    writtenRuntimeEnvMap_get_of_contains values oldFile templateRender bridgePort hnd k hk v hv
  have hMkm : (k, v) ∈ writtenRuntimeEnvMap values oldFile templateRender bridgePort :=
    dictGet_mem_pair _ _ _ hMk
  have hperm := envSort_perm envPairLe
    (writtenRuntimeEnvMap values oldFile templateRender bridgePort)
  have hentm : (k, v) ∈ envSort envPairLe
      (writtenRuntimeEnvMap values oldFile templateRender bridgePort) :=
    hperm.mem_iff.mpr hMkm
  have hwfent : ∀ e ∈ envSort envPairLe
      (writtenRuntimeEnvMap values oldFile templateRender bridgePort),
      wfWriteEntry e := fun e he => hwfM e (hperm.subset he)
  have hkv_values : (k, v) ∈ values := dictGet_mem_pair _ _ _ hv
  have hk_ok : envKeyOk k := hkeys (k, v) hkv_values
  have hv_ok : envValueOk v := hvals (k, v) hkv_values
  have hparse_target : parseEnvLine (renderEnvLine (k, v)) = some (k, v) :=
    parse_render_target k v hk_ok hv_ok
  have hvalue_unique := keysNodup_value_unique
    (writtenRuntimeEnvMap values oldFile templateRender bridgePort) hndM k v hMkm
  have hlines_bf : ∀ l ∈ (envSort envPairLe (writtenRuntimeEnvMap values oldFile
      templateRender bridgePort)).map renderEnvLine, ∀ c ∈ l, isLineBoundary c = false := by
    intro l hl c hc
    obtain ⟨e, he, rfl⟩ := List.mem_map.mp hl
    exact render_boundary_free e (hwfent e he) c hc
  have hmapne : (envSort envPairLe (writtenRuntimeEnvMap values oldFile templateRender
      bridgePort)).map renderEnvLine ≠ [] := by
    intro h0
    rw [List.map_eq_nil_iff] at h0
    rw [h0] at hentm
    cases hentm
  have hsplit := pySplitlines_joinNl _ hmapne hlines_bf
  rw [hv]
  show dictGet (readRuntimeEnvContent (joinNl ((envSort envPairLe (writtenRuntimeEnvMap
      values oldFile templateRender bridgePort)).map renderEnvLine) ++ ['\n'])) k = some v
  simp only [readRuntimeEnvContent]
  rw [hsplit]
  apply readFold_start k v _ []
  · intro raw hraw k' w hpw hk'
    obtain ⟨e, he, rfl⟩ := List.mem_map.mp hraw
    obtain ⟨w₀, hw₀⟩ := parse_render_other e (hwfent e he)
    rw [hw₀, Option.some.injEq, Prod.mk.injEq] at hpw
    obtain ⟨he1, hww⟩ := hpw
    have hek : e.1 = k := he1.trans hk'
    have he2 : e.2 = v := hvalue_unique e (hperm.subset he) hek
    have hekv : e = (k, v) := by
      rw [← hek, ← he2]
    rw [hekv] at hw₀
    rw [hparse_target, Option.some.injEq, Prod.mk.injEq] at hw₀
    rw [← hww, ← hw₀.2]
  · exact ⟨renderEnvLine (k, v), List.mem_map.mpr ⟨(k, v), hentm, rfl⟩, hparse_target⟩

/-- Counterexample to claim C10 as stated: the map `{"K": "\\n"}` (a
backslash followed by `'n'`, two characters) meets every key and value
condition of the claim — the key is non-empty with no `'='`, whitespace,
`'#'` or `"export "` prefix, the value has no leading or trailing
whitespace and is not quote-wrapped — yet the round trip returns the
one-character string `"\n"` for `K`, because the read-side unescape turns
the literal backslash-`n` into a newline that the write side never
escaped. -/
theorem runtimeEnv_roundtrip_fails_on_literal_backslash_n :
    (envKeyOk "K".toList ∧
      pyStrip ['\\', 'n'] = ['\\', 'n'] ∧ quoteWrapped ['\\', 'n'] = false) ∧
    dictGet (readRuntimeEnv (some (writeRuntimeEnv [("K".toList, ['\\', 'n'])]
        none (fun _ => []) "8765".toList))) "K".toList = some ['\n'] ∧
    dictGet [("K".toList, ['\\', 'n'])] "K".toList = some ['\\', 'n'] := by
  refine ⟨⟨?_, by decide, by decide⟩, ?_, by decide⟩
  · unfold envKeyOk
    decide
  · decide

/-- Witness for `runtimeEnv_write_read_roundtrip`: the singleton env map
`{"K": "v1"}` written with no pre-existing file, an empty rendered
template and bridge port `8765` reads back with `K ↦ v1`. -/
theorem runtimeEnv_write_read_roundtrip_witness :
    dictGet (readRuntimeEnv (some (writeRuntimeEnv [("K".toList, "v1".toList)]
        none (fun _ => []) "8765".toList))) "K".toList
      = dictGet [("K".toList, "v1".toList)] "K".toList :=
  runtimeEnv_write_read_roundtrip [("K".toList, "v1".toList)] none (fun _ => [])
    "8765".toList
    (by unfold keysNodup; decide)
    (by
      intro e he
      rw [List.mem_singleton] at he
      subst he
      unfold envKeyOk
      decide)
    (by
      intro e he
      rw [List.mem_singleton] at he
      subst he
      unfold envValueOk
      decide)
    (by decide)
    (by
      intro x raw e hraw
      simp [pySplitlines, pySplitlinesGo] at hraw)
    "K".toList (by decide)
